import Mathlib

/-!
Shallow embedding of the audit Verifier of this repository
(package `audit`: `Verifier.Verify`, `Verifier.DownloadShares`,
`checkIfSegmentAltered`, `auditShares`, `makeCopies`, `getOfflineNodes`,
`getSuccessNodes`, `createPendingAudits`, `rebuildStripe`,
`Verifier.VerifyPieceHashes`), together with theorems settling the
frozen claims about it.

External collaborators (metainfo store, order service, storage-node
downloads, the `infectious` erasure-code library, SHA-256) are modelled
as oracle fields of an environment structure: the code under analysis is
sequential, so every effect it observes can be supplied up front.
-/

namespace StorjAudit

/-- Node identifiers (`storj.NodeID`), abstracted to naturals. -/
abbrev NodeID := Nat

/-- Raw byte strings, abstracted to lists of naturals. -/
abbrev Bytes := List Nat

/-- The classification-relevant structure of a Go error returned by a share
download, mirroring the predicates tested in `Verifier.Verify`:
`rpc.Error.Has`, `errs.Is(err, context.DeadlineExceeded)`,
`errs2.IsRPC(err, rpcstatus.Unknown | NotFound | DeadlineExceeded)`. -/
structure GoErr where
  isRpcError : Bool
  isContextDeadline : Bool
  rpcStatusUnknown : Bool
  rpcStatusNotFound : Bool
  rpcStatusDeadline : Bool
deriving DecidableEq, Repr

/-- Erasure-redundancy parameters of a pointer
(`pb.RedundancyScheme`: `MinReq`, `RepairThreshold`, `Total`,
`ErasureShareSize`). -/
structure Redundancy where
  minReq : Nat
  repairThreshold : Nat
  total : Nat
  erasureShareSize : Nat
deriving DecidableEq, Repr

/-- One remote piece of a pointer (`pb.RemotePiece`): erasure index and the
node holding it. -/
structure RemotePiece where
  pieceNum : Nat
  nodeId : NodeID
deriving DecidableEq, Repr

/-- The remote part of a pointer (`pb.RemoteSegment`). -/
structure Remote where
  rootPieceId : Nat
  redundancy : Redundancy
  remotePieces : List RemotePiece
deriving DecidableEq, Repr

/-- A segment pointer (`pb.Pointer`), restricted to the fields the audit
core reads.  Go's zero `time.Time` expiration is `none`; `isRemote` models
`Type == pb.Pointer_REMOTE`. -/
structure Pointer where
  creationDate : Nat
  expirationDate : Option Nat
  pieceHashesVerified : Bool
  isRemote : Bool
  segmentSize : Nat
  remote : Remote
deriving DecidableEq, Repr

/-- `audit.Share`: one downloaded erasure share. -/
structure Share where
  error : Option GoErr
  pieceNum : Nat
  nodeId : NodeID
  data : Bytes
deriving DecidableEq, Repr

/-- Go's zero value for `audit.Share`, produced by a lookup on a missing
map key. -/
def zeroShare : Share := ⟨none, 0, 0, []⟩

/-- `audit.PendingAudit`, restricted to the fields `Verify` writes. -/
structure PendingAudit where
  nodeId : NodeID
  pieceId : Nat
  stripeIndex : Nat
  shareSize : Nat
  expectedShareHash : Bytes
  path : Nat
deriving DecidableEq, Repr

/-- `audit.Report`: the aggregate verdict of one audit.  Go's zero value
has all five collections nil. -/
structure Report where
  successes : List NodeID
  fails : List NodeID
  offlines : List NodeID
  pendingAudits : List PendingAudit
  unknown : List NodeID
deriving DecidableEq, Repr

/-- `Report{}`: the empty report. -/
def emptyReport : Report := ⟨[], [], [], [], []⟩

/-- An `pb.AddressedOrderLimit`, restricted to the only field the audit
core reads (`GetLimit().StorageNodeId`). -/
structure OrderLimit where
  nodeId : NodeID
deriving DecidableEq, Repr

/-- Outcome of a `metainfo.GetWithBytes` call that failed:
`storj.ErrObjectNotFound` or any other error. -/
inductive FetchErr where
  | notFound
  | other
deriving DecidableEq, Repr

/-- An `infectious.Share`: erasure index plus data. -/
structure InfShare where
  number : Nat
  data : Bytes
deriving DecidableEq, Repr

/-- Model of the `infectious` FEC library as used by the audit core:
`NewFEC` success, `Correct` (returning corrected data positionally aligned
with its input, numbers untouched), `Rebuild` (returning the sequence of
shares it emits through its callback), and `EncodeSingle`. -/
structure FECModel where
  newFECOk : Nat → Nat → Bool
  correctData : List InfShare → Except Unit (List Bytes)
  rebuildEmit : List InfShare → Except Unit (List InfShare)
  encodeSingle : Bytes → Nat → Except Unit Bytes

/-- Errors surfaced by the embedded `Verify` (collapsed to the classes the
claims distinguish). -/
inductive VerifyErr where
  | fetchErr
  | deleteFailed
  | stripeErr
  | parseKeyErr
  | orderLimitsErr
  | alteredFetchErr
  | notEnoughShares (got : Nat) (required : Nat)
  | auditSharesErr
  | createPendingErr
deriving DecidableEq, Repr

/-- State of the per-share classification loop in `Verifier.Verify`
(lines 134-138 initialise it; lines 176-236 update it). -/
structure ClassifyAcc where
  offline : List NodeID
  failed : List NodeID
  unknown : List NodeID
  contained : List (Nat × NodeID)
  toAudit : List (Nat × Share)
deriving DecidableEq, Repr

/-- One iteration of the classification loop of `Verifier.Verify`
(lines 176-236), in the exact test order of the source. -/
def classifyOne (acc : ClassifyAcc) (p : Nat × Share) : ClassifyAcc :=
  match p.2.error with
  | none => { acc with toAudit := acc.toAudit ++ [p] }
  | some e =>
    if e.isRpcError then
      if e.isContextDeadline then
        { acc with offline := acc.offline ++ [p.2.nodeId] }
      else if e.rpcStatusUnknown then
        { acc with offline := acc.offline ++ [p.2.nodeId] }
      else
        { acc with unknown := acc.unknown ++ [p.2.nodeId] }
    else if e.rpcStatusNotFound then
      { acc with failed := acc.failed ++ [p.2.nodeId] }
    else if e.rpcStatusDeadline then
      { acc with contained := acc.contained ++ [(p.1, p.2.nodeId)] }
    else
      { acc with unknown := acc.unknown ++ [p.2.nodeId] }

/-- The whole classification loop of `Verifier.Verify`, folded over the
downloaded shares (the map is represented as its association list), with
`offlineNodes` already holding the result of `getOfflineNodes`. -/
def classifyShares (shares : List (Nat × Share)) (initOffline : List NodeID) :
    ClassifyAcc :=
  shares.foldl classifyOne ⟨initOffline, [], [], [], []⟩

/-- `getOfflineNodes`: pieces of the pointer whose node has neither an
order limit nor appears in the skip set. -/
def getOfflineNodes (pointer : Pointer) (limits : List (Option OrderLimit))
    (skip : NodeID → Bool) : List NodeID :=
  let nodesWithLimit := (limits.filterMap id).map OrderLimit.nodeId
  (pointer.remote.remotePieces.filter
    (fun piece => !(nodesWithLimit.contains piece.nodeId) && !(skip piece.nodeId))).map
    RemotePiece.nodeId

/-- `getSuccessNodes`: nodes of downloaded shares that are in none of the
failed, offline, unknown, or contained collections. -/
def getSuccessNodes (shares : List (Nat × Share))
    (failedNodes offlineNodes unknownNodes : List NodeID)
    (containedNodes : List (Nat × NodeID)) : List NodeID :=
  (shares.filter (fun p =>
    !(failedNodes.contains p.2.nodeId) &&
    !(offlineNodes.contains p.2.nodeId) &&
    !(unknownNodes.contains p.2.nodeId) &&
    !((containedNodes.map Prod.snd).contains p.2.nodeId))).map
    (fun p => p.2.nodeId)

/-- The share value inserted by `DownloadShares` for limit index `i`:
on success `GetShare` fills every field with a `nil` error; on failure
the wrapper records the error inside the share. -/
def mkShare (getShare : Nat → OrderLimit → Except GoErr Bytes)
    (i : Nat) (l : OrderLimit) : Share :=
  match getShare i l with
  | .ok data => ⟨none, i, l.nodeId, data⟩
  | .error e => ⟨some e, i, l.nodeId, []⟩

/-- `Verifier.DownloadShares`: one share per non-nil limit, keyed by the
limit's index; always returns a `nil` function error. -/
def DownloadShares (getShare : Nat → OrderLimit → Except GoErr Bytes)
    (limits : List (Option OrderLimit)) :
    List (Nat × Share) × Option VerifyErr :=
  ((limits.enum.filterMap fun p =>
      (p.2.map fun l => (p.1, mkShare getShare p.1 l))),
   none)

/-- Lookup in a shares map, defaulting to the zero `Share` as a Go map
read does on a missing key. -/
def lookupShare (m : List (Nat × Share)) (k : Nat) : Share :=
  match m.find? (fun p => p.1 == k) with
  | some p => p.2
  | none => zeroShare

/-- The three outcomes of `checkIfSegmentAltered` other than success:
`ErrSegmentDeleted`, `ErrSegmentModified`, or a propagated fetch error. -/
inductive AlteredOutcome where
  | deleted
  | modified
  | fetchOther
deriving DecidableEq, Repr

/-- `Verifier.checkIfSegmentAltered`: re-fetch the pointer; not-found maps
to `ErrSegmentDeleted`; a changed `CreationDate` also maps to
`ErrSegmentDeleted`; changed bytes map to `ErrSegmentModified`. -/
def checkIfSegmentAltered (refetch : Except FetchErr (Bytes × Pointer))
    (oldPointerBytes : Bytes) (oldPointer : Pointer) : Option AlteredOutcome :=
  match refetch with
  | .error .notFound => some .deleted
  | .error .other => some .fetchOther
  | .ok (newPointerBytes, newPointer) =>
    if oldPointer.creationDate ≠ newPointer.creationDate then some .deleted
    else if oldPointerBytes ≠ newPointerBytes then some .modified
    else none

/-- `makeCopies`: deep-copy the audit shares into `infectious` shares,
numbered by the share's `PieceNum` field. -/
def makeCopies (originals : List (Nat × Share)) : List InfShare :=
  originals.map (fun p => ⟨p.2.pieceNum, p.2.data⟩)

/-- `auditShares`: run the FEC `Correct` over copies of the downloaded
shares; the piece numbers whose corrected data differ from the original
downloaded data are the altered shares.  The in-place correction of the
Go library is modelled by zipping the corrected data back onto the
copies' numbers. -/
def auditShares (fec : FECModel) (required total : Nat)
    (originals : List (Nat × Share)) :
    Except VerifyErr (List Nat × List InfShare) :=
  if !(fec.newFECOk required total) then .error .auditSharesErr
  else
    let copies := makeCopies originals
    match fec.correctData copies with
    | .error _ => .error .auditSharesErr
    | .ok datas =>
      let corrected := (copies.zip datas).map (fun p => ⟨p.1.number, p.2⟩)
      let pieceNums := corrected.filterMap (fun sh =>
        if (lookupShare originals sh.number).data ≠ sh.data then some sh.number
        else none)
      .ok (pieceNums, corrected)

/-- Go's `copy(dst[off:], src)`: overwrite `dst` from offset `off` with as
much of `src` as fits. -/
def copyInto (dst : Bytes) (off : Nat) (src : Bytes) : Bytes :=
  dst.mapIdx (fun i b => if off ≤ i ∧ i < off + src.length then src.getD (i - off) b else b)

/-- `rebuildStripe`: allocate a `required*shareSize` zero stripe and let
the FEC `Rebuild` emit corrected shares, copying each at offset
`number*shareSize`. -/
def rebuildStripe (fec : FECModel) (required : Nat)
    (corrected : List InfShare) (shareSize : Nat) : Except VerifyErr Bytes :=
  match fec.rebuildEmit corrected with
  | .error _ => .error .createPendingErr
  | .ok emitted =>
    .ok (emitted.foldl
      (fun stripe sh => copyInto stripe (sh.number * shareSize) sh.data)
      (List.replicate (required * shareSize) 0))

/-- The per-contained-node loop of `createPendingAudits`: re-encode the
node's share from the rebuilt stripe and commit its SHA-256; the loop
aborts on the first `EncodeSingle` error. -/
def encodePending (fec : FECModel) (sha256 : Bytes → Bytes)
    (stripeData : Bytes) (rootPieceId stripeIndex shareSize path : Nat) :
    List (Nat × NodeID) → Except VerifyErr (List PendingAudit)
  | [] => .ok []
  | (pieceNum, nodeId) :: rest =>
    match fec.encodeSingle stripeData pieceNum with
    | .error _ => .error .createPendingErr
    | .ok share =>
      match encodePending fec sha256 stripeData rootPieceId stripeIndex shareSize path rest with
      | .error e => .error e
      | .ok pas =>
        .ok (⟨nodeId, rootPieceId, stripeIndex, shareSize, sha256 share, path⟩ :: pas)

/-- `createPendingAudits`: nothing to do when no node is contained;
otherwise rebuild the corrected stripe and emit one `PendingAudit` per
contained node. -/
def createPendingAudits (fec : FECModel) (sha256 : Bytes → Bytes)
    (containedNodes : List (Nat × NodeID)) (correctedShares : List InfShare)
    (pointer : Pointer) (randomIndex : Nat) (path : Nat) :
    Except VerifyErr (List PendingAudit) :=
  if containedNodes.isEmpty then .ok []
  else
    let red := pointer.remote.redundancy
    if !(fec.newFECOk red.minReq red.total) then .error .createPendingErr
    else
      match rebuildStripe fec red.minReq correctedShares red.erasureShareSize with
      | .error e => .error e
      | .ok stripeData =>
        encodePending fec sha256 stripeData pointer.remote.rootPieceId
          randomIndex red.erasureShareSize path containedNodes

/-- Environment for one `Verifier.Verify` call: every effect the
sequential code observes, supplied up front.  `fetch1` is the initial
`GetWithBytes`; `refetch` the one inside `checkIfSegmentAltered`;
`getShare` the per-limit download outcome. -/
structure VerifyEnv where
  fetch1 : Except FetchErr (Bytes × Pointer)
  now : Nat
  deleteFails : Bool
  randomStripe : Except Unit Nat
  parseKeyOk : Bool
  orderLimits : Except Unit (List (Option OrderLimit))
  skip : NodeID → Bool
  getShare : Nat → OrderLimit → Except GoErr Bytes
  refetch : Except FetchErr (Bytes × Pointer)
  fec : FECModel
  sha256 : Bytes → Bytes
  usedToVerifyPieceHashes : Bool
  path : Nat

/-- The deferred hashes-unverified guard of `Verify` (lines 112-121):
skipped entirely when the verifier is used by the verify-piece-hashes
command, otherwise clears `Fails` and `PendingAudits` whenever the
pointer's piece hashes were never verified. -/
def applyHashGuard (usedToVerifyPieceHashes : Bool) (pointer : Pointer)
    (r : Report) : Report :=
  if usedToVerifyPieceHashes then r
  else if !pointer.pieceHashesVerified then { r with pendingAudits := [], fails := [] }
  else r

/-- The body of `Verify` from stripe selection onward (lines 123-328),
before the deferred guard is applied. -/
def verifyBody (env : VerifyEnv) (pointerBytes : Bytes) (pointer : Pointer) :
    Report × Option VerifyErr :=
  match env.randomStripe with
  | .error _ => (emptyReport, some .stripeErr)
  | .ok randomIndex =>
    if !env.parseKeyOk then (emptyReport, some .parseKeyErr)
    else
      match env.orderLimits with
      | .error _ => (emptyReport, some .orderLimitsErr)
      | .ok limits =>
        let offlineNodes := getOfflineNodes pointer limits env.skip
        let shares := (DownloadShares env.getShare limits).1
        match checkIfSegmentAltered env.refetch pointerBytes pointer with
        | some .deleted => (emptyReport, none)
        | some .modified => (emptyReport, none)
        | some .fetchOther =>
          ({ emptyReport with offlines := offlineNodes }, some .alteredFetchErr)
        | none =>
          let acc := classifyShares shares offlineNodes
          let required := pointer.remote.redundancy.minReq
          let total := pointer.remote.redundancy.total
          if acc.toAudit.length < required then
            ({ emptyReport with
                fails := acc.failed, offlines := acc.offline, unknown := acc.unknown },
             some (.notEnoughShares acc.toAudit.length required))
          else
            match auditShares env.fec required total acc.toAudit with
            | .error e =>
              ({ emptyReport with
                  fails := acc.failed, offlines := acc.offline, unknown := acc.unknown },
               some e)
            | .ok (pieceNums, correctedShares) =>
              let failedNodes :=
                acc.failed ++ pieceNums.map (fun pn => (lookupShare shares pn).nodeId)
              let successNodes :=
                getSuccessNodes shares failedNodes acc.offline acc.unknown acc.contained
              match createPendingAudits env.fec env.sha256 acc.contained correctedShares
                  pointer randomIndex env.path with
              | .error e =>
                ({ successes := successNodes, fails := failedNodes,
                   offlines := acc.offline, pendingAudits := [], unknown := acc.unknown },
                 some e)
              | .ok pendingAudits =>
                ({ successes := successNodes, fails := failedNodes,
                   offlines := acc.offline, pendingAudits := pendingAudits,
                   unknown := acc.unknown },
                 none)

/-- Whether the pointer has expired (`ExpirationDate != time.Time{} &&
ExpirationDate.Before(time.Now())`). -/
def pointerExpired (pointer : Pointer) (now : Nat) : Bool :=
  match pointer.expirationDate with
  | none => false
  | some d => d < now

/-- `Verifier.Verify`: pointer acquisition, expiration eviction, then the
body with the deferred hashes-unverified guard applied (the guard is
installed only after the expiration check, so the earlier returns bypass
it — they return the empty report anyway). -/
def Verify (env : VerifyEnv) : Report × Option VerifyErr :=
  match env.fetch1 with
  | .error .notFound => (emptyReport, none)
  | .error .other => (emptyReport, some .fetchErr)
  | .ok (pointerBytes, pointer) =>
    if pointerExpired pointer env.now then
      if env.deleteFails then (emptyReport, some .deleteFailed)
      else (emptyReport, none)
    else
      let r := verifyBody env pointerBytes pointer
      (applyHashGuard env.usedToVerifyPieceHashes pointer r.1, r.2)

/-- Outcome of the conditional metainfo update
`UpdatePiecesCheckDuplicatesVerifyHashes`: `storage.ErrValueChanged`,
`storage.ErrKeyNotFound`, or any other error. -/
inductive UpdateErr where
  | valueChanged
  | keyNotFound
  | other
deriving DecidableEq, Repr

/-- Errors surfaced by the embedded `VerifyPieceHashes`. -/
inductive VPHErr where
  | fetchErr
  | verifyErr (e : VerifyErr)
  | sanityCheck
  | updateErr
  | failedToModify
deriving DecidableEq, Repr

/-- Environment for one `Verifier.VerifyPieceHashes` call.  The oracles
are indexed by the value of the loop counter `attempts` at iteration
entry (0 for the first iteration, 2 for the second, ...), since every
iteration re-reads the pointer, re-runs `Verify` and re-attempts the
update. -/
structure VPHEnv where
  fetch : Nat → Except FetchErr (Bytes × Pointer)
  verify : Nat → Except VerifyErr Report
  update : Nat → Option UpdateErr
  dryRun : Bool

/-- `maxAttempts` of `VerifyPieceHashes`. -/
def vphMaxAttempts : Nat := 3

/-- One iteration of the retry loop of `VerifyPieceHashes` (lines
912-1003), entered with loop counter `a`: `some r` means the function
returns `r`; `none` means the `ValueChanged` branch hit `continue`. -/
def vphBody (env : VPHEnv) (a : Nat) : Option (Bool × Option VPHErr) :=
  match env.fetch a with
  | .error .notFound => some (false, none)
  | .error .other => some (false, some .fetchErr)
  | .ok (_, pointer) =>
    if pointer.pieceHashesVerified then some (false, none)
    else if !pointer.isRemote then some (false, none)
    else
      match env.verify a with
      | .error e => some (false, some (.verifyErr e))
      | .ok report =>
        if report.successes.length = 0 then some (false, none)
        else if report.successes.length < pointer.remote.redundancy.minReq then
          some (false, none)
        else if report.successes.length < pointer.remote.redundancy.repairThreshold then
          some (false, none)
        else
          let toRemoveCount := report.fails.length + report.offlines.length +
            report.pendingAudits.length + report.unknown.length
          let toRemove := pointer.remote.remotePieces.filter
            (fun piece => !(report.successes.contains piece.nodeId))
          if toRemove.length ≠ toRemoveCount then some (false, some .sanityCheck)
          else if env.dryRun then some (true, none)
          else
            match env.update a with
            | some .valueChanged => none
            | some .keyNotFound => some (false, none)
            | some .other => some (false, some .updateErr)
            | none => some (true, none)

/-- Whether the iteration entered with loop counter `a` reaches the
conditional metainfo update (mirrors the control flow of `vphBody` up to
the update call). -/
def vphBodyCallsUpdate (env : VPHEnv) (a : Nat) : Bool :=
  match env.fetch a with
  | .error _ => false
  | .ok (_, pointer) =>
    if pointer.pieceHashesVerified then false
    else if !pointer.isRemote then false
    else
      match env.verify a with
      | .error _ => false
      | .ok report =>
        if report.successes.length = 0 then false
        else if report.successes.length < pointer.remote.redundancy.minReq then false
        else if report.successes.length < pointer.remote.redundancy.repairThreshold then false
        else
          let toRemoveCount := report.fails.length + report.offlines.length +
            report.pendingAudits.length + report.unknown.length
          let toRemove := pointer.remote.remotePieces.filter
            (fun piece => !(report.successes.contains piece.nodeId))
          if toRemove.length ≠ toRemoveCount then false
          else if env.dryRun then false
          else true

/-- The retry loop of `VerifyPieceHashes`, faithful to the source: the
loop guard is `attempts < maxAttempts`, but `attempts` is incremented
BOTH in the loop body (line 910) and in the loop post statement, so each
`continue` advances the counter by 2.  The structural `fuel` argument
bounds the number of guard checks; since the counter advances by 2 per
iteration, `vphMaxAttempts` guard checks always suffice and the
fuel-exhausted branch is unreachable from `VerifyPieceHashes`. -/
def vphRun (env : VPHEnv) : Nat → Nat → Bool × Option VPHErr
  | 0, _ => (false, some .failedToModify)
  | fuel + 1, attempts =>
    if attempts < vphMaxAttempts then
      match vphBody env attempts with
      | some r => r
      | none => vphRun env fuel (attempts + 2)
    else (false, some .failedToModify)

/-- Number of conditional metainfo updates issued by the run, with the
same fuel discipline as `vphRun`. -/
def vphUpdateCallsFrom (env : VPHEnv) : Nat → Nat → Nat
  | 0, _ => 0
  | fuel + 1, attempts =>
    if attempts < vphMaxAttempts then
      (if vphBodyCallsUpdate env attempts then 1 else 0) +
        match vphBody env attempts with
        | some _ => 0
        | none => vphUpdateCallsFrom env fuel (attempts + 2)
    else 0

/-- `Verifier.VerifyPieceHashes`. -/
def VerifyPieceHashes (env : VPHEnv) : Bool × Option VPHErr :=
  vphRun env vphMaxAttempts 0

/-- Number of conditional metainfo updates issued by one
`VerifyPieceHashes` call. -/
def vphUpdateCalls (env : VPHEnv) : Nat :=
  vphUpdateCallsFrom env vphMaxAttempts 0

/-- Number of buckets (out of the five report sets and the skip set) that
hold a given node. -/
def inBucketCount (r : Report) (skip : NodeID → Bool) (n : NodeID) : Nat :=
  (if n ∈ r.successes then 1 else 0) +
  (if n ∈ r.fails then 1 else 0) +
  (if n ∈ r.offlines then 1 else 0) +
  (if n ∈ r.unknown then 1 else 0) +
  (if n ∈ r.pendingAudits.map PendingAudit.nodeId then 1 else 0) +
  (if skip n then 1 else 0)

/-! ### Bucket conditions

The first four are the conditions the claims state, word for word: a
transport-layer error that is a context deadline-exceeded or carries RPC
status `Unknown` is offline; any other transport-layer error, and any
non-transport error that is neither `NotFound` nor `DeadlineExceeded`, is
unknown; a non-transport `NotFound` is failed; a non-transport
`DeadlineExceeded` is contained.  `containedCond` is the code-order
variant (the source tests `NotFound` before `DeadlineExceeded`); it
coincides with `containedClaimCond` for errors carrying a single RPC
status. -/

/-- Spec condition for the offline bucket. -/
def offlineCond : Option GoErr → Bool
  | none => false
  | some e => e.isRpcError && (e.isContextDeadline || e.rpcStatusUnknown)

/-- Spec condition for the failed bucket. -/
def failedCond : Option GoErr → Bool
  | none => false
  | some e => !e.isRpcError && e.rpcStatusNotFound

/-- Spec condition for the unknown bucket. -/
def unknownCond : Option GoErr → Bool
  | none => false
  | some e =>
    (e.isRpcError && !(e.isContextDeadline || e.rpcStatusUnknown)) ||
    (!e.isRpcError && !e.rpcStatusNotFound && !e.rpcStatusDeadline)

/-- Claim-order condition for the contained bucket: an application-layer
`DeadlineExceeded`. -/
def containedClaimCond : Option GoErr → Bool
  | none => false
  | some e => !e.isRpcError && e.rpcStatusDeadline

/-- Code-order condition for the contained bucket: the source reaches the
`DeadlineExceeded` test only after the `NotFound` test failed. -/
def containedCond : Option GoErr → Bool
  | none => false
  | some e => !e.isRpcError && !e.rpcStatusNotFound && e.rpcStatusDeadline

/-- Proof-internal view of the shares map built by `DownloadShares`, with
an explicit starting index for the enumeration. -/
def dsAux (g : Nat → OrderLimit → Except GoErr Bytes)
    (limits : List (Option OrderLimit)) (n : Nat) : List (Nat × Share) :=
  (limits.enumFrom n).filterMap fun p => p.2.map fun l => (p.1, mkShare g p.1 l)

/-! ### Concrete material for witnesses and counterexamples -/

/-- Concrete exercise of the classification loop: six shares, one per
bucket condition. -/
def c1Shares : List (Nat × Share) :=
  [(0, ⟨none, 0, 10, [1]⟩),
   (1, ⟨some ⟨true, true, false, false, false⟩, 1, 11, []⟩),
   (2, ⟨some ⟨true, false, true, false, false⟩, 2, 12, []⟩),
   (3, ⟨some ⟨true, false, false, false, false⟩, 3, 13, []⟩),
   (4, ⟨some ⟨false, false, false, true, false⟩, 4, 14, []⟩),
   (5, ⟨some ⟨false, false, false, false, true⟩, 5, 15, []⟩)]

/-- A transport error used by the C10 witness. -/
def c10err : GoErr := ⟨true, false, false, false, false⟩

/-- Limits used by the C10 witness: one non-nil limit at index 0, a nil
limit at index 1. -/
def c10limits : List (Option OrderLimit) := [some ⟨5⟩, none]

/-- Download behaviour used by the C10 witness: index 0 fails, others
succeed. -/
def c10g : Nat → OrderLimit → Except GoErr Bytes :=
  fun i _ => if i = 0 then .error c10err else .ok [7]

/-- An application-layer `NotFound` error. -/
def nfErr : GoErr := ⟨false, false, false, true, false⟩

/-- A trivial FEC model for concrete environments: correction returns the
data unchanged, rebuild emits the corrected shares as-is, single-share
encoding returns the stripe itself. -/
def fecTriv : FECModel :=
  { newFECOk := fun _ _ => true,
    correctData := fun l => .ok (l.map InfShare.data),
    rebuildEmit := fun l => .ok l,
    encodeSingle := fun stripe _ => .ok stripe }

/-- A pointer with one piece held by node 1, redundancy k = 1, piece
hashes NOT yet verified. -/
def cPtrUnverified : Pointer :=
  { creationDate := 0, expirationDate := none, pieceHashesVerified := false,
    isRemote := true, segmentSize := 4,
    remote := { rootPieceId := 0, redundancy := ⟨1, 1, 1, 1⟩,
                remotePieces := [⟨0, 1⟩] } }

/-- The same pointer with piece hashes verified. -/
def cPtrVerified : Pointer :=
  { cPtrUnverified with pieceHashesVerified := true }

/-- The single-limit slice naming node 1, used by concrete environments. -/
def cLimits : List (Option OrderLimit) := [some ⟨1⟩]

/-- Environment where node 1's download fails `NotFound`, piece hashes
are unverified, and the verifier is flagged as used by the
verify-piece-hashes command: the deferred guard is skipped. -/
def c2env : VerifyEnv :=
  { fetch1 := .ok ([0], cPtrUnverified), now := 0, deleteFails := false,
    randomStripe := .ok 0, parseKeyOk := true,
    orderLimits := .ok cLimits, skip := fun _ => false,
    getShare := fun _ _ => .error nfErr,
    refetch := .ok ([0], cPtrUnverified),
    fec := fecTriv, sha256 := fun b => b,
    usedToVerifyPieceHashes := true, path := 0 }

/-- `c2env` with the verify-piece-hashes flag off: the guard applies. -/
def c2wEnv : VerifyEnv :=
  { c2env with usedToVerifyPieceHashes := false }

/-- Environment for the C5 witness: piece hashes verified, download fails
`NotFound`, so the sufficiency gate fires with a non-empty failed list. -/
def c5wEnv : VerifyEnv :=
  { c2env with
    fetch1 := .ok ([0], cPtrVerified),
    refetch := .ok ([0], cPtrVerified),
    usedToVerifyPieceHashes := false }

/-- Old pointer for the C6 counterexample (creation date 0). -/
def c6oldPtr : Pointer := cPtrVerified

/-- Re-fetched pointer for the C6 counterexample: creation date changed
to 1 — and the serialized bytes changed accordingly. -/
def c6newPtr : Pointer := { cPtrVerified with creationDate := 1 }

/-- Environment for the C6 witness: the re-fetch sees changed bytes with
an unchanged creation date, mid-flight, on an otherwise healthy audit. -/
def c6wEnv : VerifyEnv :=
  { c2env with
    fetch1 := .ok ([0], cPtrVerified),
    refetch := .ok ([1], cPtrVerified),
    usedToVerifyPieceHashes := false }

/-- A pointer that expired at time 0. -/
def c7ptr : Pointer := { cPtrVerified with expirationDate := some 0 }

/-- Environment for the C7 counterexample: the pointer expired and the
best-effort delete fails. -/
def c7env : VerifyEnv :=
  { c2env with
    fetch1 := .ok ([0], c7ptr), now := 1, deleteFails := true,
    usedToVerifyPieceHashes := false }

/-- `c7env` with a succeeding delete, for the C7 witness. -/
def c7wEnv : VerifyEnv := { c7env with deleteFails := false }

/-- Environment for the C4 counterexample: the pointer expired (delete
succeeds), so `Verify` returns the empty report with `nil` error while
the pointer still lists node 1, which is in no bucket. -/
def c4env : VerifyEnv := { c7env with deleteFails := false }

/-- Environment for the C4 witness: verified pointer, one piece (node
1), its download succeeds and the erasure check passes, so node 1 lands
in `Successes` and in no other bucket. -/
def c4wEnv : VerifyEnv :=
  { fetch1 := .ok ([0], cPtrVerified), now := 0, deleteFails := false,
    randomStripe := .ok 0, parseKeyOk := true,
    orderLimits := .ok cLimits, skip := fun _ => false,
    getShare := fun _ _ => .ok [3],
    refetch := .ok ([0], cPtrVerified),
    fec := fecTriv, sha256 := fun b => b,
    usedToVerifyPieceHashes := false, path := 0 }

/-- Hash model for the C3 witness: prepend a marker byte. -/
def c3sha : Bytes → Bytes := fun b => 9 :: b

/-- The pending audits `createPendingAudits` emits for the C3 witness:
one contained node 7 at piece 0, trivial FEC, stripe `[0]`. -/
def c3pending : List PendingAudit := [⟨7, 0, 3, 1, [9, 0], 5⟩]

/-- Environment for the C9 witness: unverified pointer, empty success
list, so `VerifyPieceHashes` must bail out before any update. -/
def c9env : VPHEnv :=
  { fetch := fun _ => .ok ([0], cPtrUnverified),
    verify := fun _ => .ok emptyReport,
    update := fun _ => none, dryRun := false }

/-- Audit report fed to the C8 environment: node 1 succeeded, so the
retry loop reaches the conditional update every iteration. -/
def c8report : Report := ⟨[1], [], [], [], []⟩

/-- Environment for C8: the conditional update fails with `ValueChanged`
whenever the loop counter is below 4 — i.e. on the first two iterations —
and would succeed on a third attempt (counter 4). -/
def c8env : VPHEnv :=
  { fetch := fun _ => .ok ([0], cPtrUnverified),
    verify := fun _ => .ok c8report,
    update := fun a => if a < 4 then some .valueChanged else none,
    dryRun := false }

/-- Unconditional characterisation of the classification loop: the final
accumulator extends the initial one by exactly the shares matching each
(code-order) bucket condition, in input order. -/
theorem classify_spec (shares : List (Nat × Share)) (acc : ClassifyAcc) :
    shares.foldl classifyOne acc =
      { offline := acc.offline ++
          (shares.filter (fun p => offlineCond p.2.error)).map (fun p => p.2.nodeId),
        failed := acc.failed ++
          (shares.filter (fun p => failedCond p.2.error)).map (fun p => p.2.nodeId),
        unknown := acc.unknown ++
          (shares.filter (fun p => unknownCond p.2.error)).map (fun p => p.2.nodeId),
        contained := acc.contained ++
          (shares.filter (fun p => containedCond p.2.error)).map
            (fun p => (p.1, p.2.nodeId)),
        toAudit := acc.toAudit ++ shares.filter (fun p => p.2.error.isNone) } := by
  induction shares generalizing acc with
  | nil => simp
  | cons p rest ih =>
    rw [List.foldl_cons, ih]
    rcases p with ⟨k, s⟩
    rcases herr : s.error with _ | e
    · simp [classifyOne, herr, offlineCond, failedCond, unknownCond, containedCond]
    · cases h1 : e.isRpcError <;> cases h2 : e.isContextDeadline <;>
        cases h3 : e.rpcStatusUnknown <;> cases h4 : e.rpcStatusNotFound <;>
        cases h5 : e.rpcStatusDeadline <;>
        simp [classifyOne, herr, offlineCond, failedCond, unknownCond, containedCond,
          h1, h2, h3, h4, h5]

/-- C1.  In `Verify`'s per-share classification, a downloaded share with
a transport-layer error that is a context deadline-exceeded or carries
RPC status `Unknown` goes to the offline list; any other transport-layer
error goes to the unknown list; an application-layer `NotFound` goes to
the failed list; an application-layer `DeadlineExceeded` goes to the
contained map (the source of `PendingAudit`s, never a direct fail); any
other error goes to the unknown list; a share with `nil` error joins the
set audited for erasure correctness.  The hypothesis states that each
error carries at most one RPC status code, which is true of every real
Go error (`errs2.IsRPC` compares the single status of the error). -/
theorem claim_C1_share_classification (shares : List (Nat × Share))
    (initOffline : List NodeID)
    (hstatus : ∀ p ∈ shares, ∀ e, p.2.error = some e →
      ¬(e.rpcStatusNotFound = true ∧ e.rpcStatusDeadline = true)) :
    classifyShares shares initOffline =
      { offline := initOffline ++
          (shares.filter (fun p => offlineCond p.2.error)).map (fun p => p.2.nodeId),
        failed :=
          (shares.filter (fun p => failedCond p.2.error)).map (fun p => p.2.nodeId),
        unknown :=
          (shares.filter (fun p => unknownCond p.2.error)).map (fun p => p.2.nodeId),
        contained :=
          (shares.filter (fun p => containedClaimCond p.2.error)).map
            (fun p => (p.1, p.2.nodeId)),
        toAudit := shares.filter (fun p => p.2.error.isNone) } := by
  have hcc : shares.filter (fun p => containedCond p.2.error) =
      shares.filter (fun p => containedClaimCond p.2.error) := by
    refine List.filter_congr (fun p hp => ?_)
    rcases herr : p.2.error with _ | e
    · rfl
    · have := hstatus p hp e herr
      simp only [containedCond, containedClaimCond]
      cases h1 : e.isRpcError <;> cases h4 : e.rpcStatusNotFound <;>
        cases h5 : e.rpcStatusDeadline <;> simp_all
  unfold classifyShares
  rw [classify_spec, hcc]
  simp

/-- Witness for C1: evaluating the classification on `c1Shares`. -/
theorem claim_C1_witness :
    classifyShares c1Shares [9] =
      { offline := [9, 11, 12], failed := [14], unknown := [13],
        contained := [(5, 15)], toAudit := [(0, ⟨none, 0, 10, [1]⟩)] } := by
  rw [claim_C1_share_classification c1Shares [9] (by decide)]
  decide

/-! ### Helper lemmas: the shares map built by `DownloadShares` -/

theorem DownloadShares_fst (g : Nat → OrderLimit → Except GoErr Bytes)
    (limits : List (Option OrderLimit)) :
    (DownloadShares g limits).1 = dsAux g limits 0 := rfl

@[simp] theorem dsAux_nil (g : Nat → OrderLimit → Except GoErr Bytes) (n : Nat) :
    dsAux g [] n = [] := rfl

@[simp] theorem dsAux_cons_none (g : Nat → OrderLimit → Except GoErr Bytes)
    (rest : List (Option OrderLimit)) (n : Nat) :
    dsAux g (none :: rest) n = dsAux g rest (n + 1) := rfl

@[simp] theorem dsAux_cons_some (g : Nat → OrderLimit → Except GoErr Bytes)
    (l : OrderLimit) (rest : List (Option OrderLimit)) (n : Nat) :
    dsAux g (some l :: rest) n = (n, mkShare g n l) :: dsAux g rest (n + 1) := rfl

/-- Every key of the shares map is at least the starting index. -/
theorem dsAux_key_lb (g : Nat → OrderLimit → Except GoErr Bytes) :
    ∀ (limits : List (Option OrderLimit)) (n : Nat), ∀ p ∈ dsAux g limits n, n ≤ p.1 := by
  intro limits
  induction limits with
  | nil => simp
  | cons ol rest ih =>
    intro n p hp
    cases ol with
    | none =>
      rw [dsAux_cons_none] at hp
      exact Nat.le_of_succ_le (ih (n + 1) p hp)
    | some l =>
      rw [dsAux_cons_some, List.mem_cons] at hp
      rcases hp with hp | hp
      · subst hp; exact Nat.le_refl n
      · exact Nat.le_of_succ_le (ih (n + 1) p hp)

/-- Lookup in the shares map mirrors indexing into the limits list. -/
theorem dsAux_find (g : Nat → OrderLimit → Except GoErr Bytes) :
    ∀ (limits : List (Option OrderLimit)) (n i : Nat),
    (dsAux g limits n).find? (fun p => p.1 == n + i) =
      match limits.get? i with
      | some (some l) => some (n + i, mkShare g (n + i) l)
      | _ => none := by
  intro limits
  induction limits with
  | nil => simp
  | cons ol rest ih =>
    intro n i
    cases ol with
    | none =>
      rw [dsAux_cons_none]
      cases i with
      | zero =>
        rw [List.find?_eq_none.mpr]
        · rfl
        · intro p hp
          have := dsAux_key_lb g rest (n + 1) p hp
          simp only [beq_iff_eq]
          omega
      | succ j =>
        have h := ih (n + 1) j
        have harith : n + (j + 1) = (n + 1) + j := by omega
        rw [harith, h]
        rfl
    | some l =>
      rw [dsAux_cons_some]
      cases i with
      | zero =>
        rw [List.find?_cons_of_pos _ (by simp)]
        simp
      | succ j =>
        rw [List.find?_cons_of_neg _ (by simp)]
        have h := ih (n + 1) j
        have harith : n + (j + 1) = (n + 1) + j := by omega
        rw [harith, h]
        rfl

/-- Membership in the shares map mirrors the non-nil entries of the
limits list. -/
theorem dsAux_mem (g : Nat → OrderLimit → Except GoErr Bytes) :
    ∀ (limits : List (Option OrderLimit)) (n : Nat) (q : Nat × Share),
    q ∈ dsAux g limits n ↔
      ∃ j l, limits.get? j = some (some l) ∧ q = (n + j, mkShare g (n + j) l) := by
  intro limits
  induction limits with
  | nil => simp
  | cons ol rest ih =>
    intro n q
    cases ol with
    | none =>
      rw [dsAux_cons_none, ih (n + 1)]
      constructor
      · rintro ⟨j, l, hget, hq⟩
        exact ⟨j + 1, l, by simpa using hget,
          by rw [hq, show n + (j + 1) = n + 1 + j from by omega]⟩
      · rintro ⟨j, l, hget, hq⟩
        cases j with
        | zero => simp at hget
        | succ j' =>
          exact ⟨j', l, by simpa using hget,
            by rw [hq, show n + (j' + 1) = n + 1 + j' from by omega]⟩
    | some l0 =>
      rw [dsAux_cons_some, List.mem_cons, ih (n + 1)]
      constructor
      · rintro (hq | ⟨j, l, hget, hq⟩)
        · exact ⟨0, l0, rfl, by simpa using hq⟩
        · exact ⟨j + 1, l, by simpa using hget,
            by rw [hq, show n + (j + 1) = n + 1 + j from by omega]⟩
      · rintro ⟨j, l, hget, hq⟩
        cases j with
        | zero =>
          left
          simp at hget
          subst hget
          simpa using hq
        | succ j' =>
          right
          exact ⟨j', l, by simpa using hget,
            by rw [hq, show n + (j' + 1) = n + 1 + j' from by omega]⟩

/-- The keys of the shares map are pairwise distinct. -/
theorem dsAux_keys_nodup (g : Nat → OrderLimit → Except GoErr Bytes) :
    ∀ (limits : List (Option OrderLimit)) (n : Nat),
    ((dsAux g limits n).map Prod.fst).Nodup := by
  intro limits
  induction limits with
  | nil => simp
  | cons ol rest ih =>
    intro n
    cases ol with
    | none => rw [dsAux_cons_none]; exact ih (n + 1)
    | some l =>
      rw [dsAux_cons_some, List.map_cons, List.nodup_cons]
      refine ⟨fun hmem => ?_, ih (n + 1)⟩
      rw [List.mem_map] at hmem
      rcases hmem with ⟨p, hp, hkey⟩
      have := dsAux_key_lb g rest (n + 1) p hp
      omega

/-- The share stored for index `i` when limit `i` is non-nil. -/
theorem lookupShare_dsAux (g : Nat → OrderLimit → Except GoErr Bytes)
    (limits : List (Option OrderLimit)) (i : Nat) (l : OrderLimit)
    (h : limits.get? i = some (some l)) :
    lookupShare (dsAux g limits 0) i = mkShare g i l := by
  unfold lookupShare
  have hf := dsAux_find g limits 0 i
  rw [Nat.zero_add] at hf
  rw [hf, h]

/-- C10.  For every limits slice and every behaviour of the per-node
downloads, `DownloadShares` itself returns a `nil` error, and its result
map contains exactly one `Share` per non-nil limit, keyed by that limit's
index (keys are pairwise distinct and indices with a nil or absent limit
have no entry); a download failure is recorded inside the `Share`'s
`Error` field (with the limit's node and empty data), and a successful
download yields a `Share` with `nil` error and the downloaded data. -/
theorem claim_C10_download_shares (g : Nat → OrderLimit → Except GoErr Bytes)
    (limits : List (Option OrderLimit)) :
    (DownloadShares g limits).2 = none ∧
    ((DownloadShares g limits).1.map Prod.fst).Nodup ∧
    (∀ i l, limits.get? i = some (some l) →
      (DownloadShares g limits).1.find? (fun p => p.1 == i) =
        some (i, mkShare g i l)) ∧
    (∀ i, (limits.get? i = some none ∨ limits.get? i = none) →
      (DownloadShares g limits).1.find? (fun p => p.1 == i) = none) ∧
    (∀ i l e, limits.get? i = some (some l) → g i l = .error e →
      (DownloadShares g limits).1.find? (fun p => p.1 == i) =
        some (i, ⟨some e, i, l.nodeId, []⟩)) ∧
    (∀ i l d, limits.get? i = some (some l) → g i l = .ok d →
      (DownloadShares g limits).1.find? (fun p => p.1 == i) =
        some (i, ⟨none, i, l.nodeId, d⟩)) := by
  rw [DownloadShares_fst]
  have hfind : ∀ i, (dsAux g limits 0).find? (fun p => p.1 == i) =
      match limits.get? i with
      | some (some l) => some (i, mkShare g i l)
      | _ => none := by
    intro i
    have hf := dsAux_find g limits 0 i
    rw [Nat.zero_add] at hf
    exact hf
  refine ⟨rfl, dsAux_keys_nodup g limits 0, ?_, ?_, ?_, ?_⟩
  · intro i l h
    rw [hfind i, h]
  · intro i h
    rcases h with h | h <;> rw [hfind i, h]
  · intro i l e h hg
    rw [hfind i, h]
    simp [mkShare, hg]
  · intro i l d h hg
    rw [hfind i, h]
    simp [mkShare, hg]

/-- Witness for C10 at a concrete limits slice and download behaviour. -/
theorem claim_C10_witness :
    (DownloadShares c10g c10limits).2 = none ∧
    (DownloadShares c10g c10limits).1.find? (fun p => p.1 == 0) =
      some (0, ⟨some c10err, 0, 5, []⟩) ∧
    (DownloadShares c10g c10limits).1.find? (fun p => p.1 == 1) = none := by
  have h := claim_C10_download_shares c10g c10limits
  exact ⟨h.1, h.2.2.2.2.1 0 ⟨5⟩ c10err rfl rfl, h.2.2.2.1 1 (Or.inl rfl)⟩

/-- C2, counterexample.  When the verifier is flagged
`UsedToVerifyPieceHashes`, the deferred guard is skipped (line 113-115):
here the pointer's `PieceHashesVerified` is false on entry, yet the
returned Report's `Fails` is non-empty. -/
theorem claim_C2_counterexample :
    c2env.fetch1 = Except.ok ([0], cPtrUnverified) ∧
    cPtrUnverified.pieceHashesVerified = false ∧
    (Verify c2env).1.fails = [1] :=
  ⟨rfl, rfl, rfl⟩

/-- C2, amended.  For every call to `Verify` on a pointer whose
`PieceHashesVerified` flag is false on entry, by a verifier NOT flagged
`UsedToVerifyPieceHashes`, the returned Report has empty `Fails` and
empty `PendingAudits` on every return path (including the
`ErrNotEnoughShares` path); `Successes`, `Offlines` and `Unknown` are
untouched by the guard. -/
theorem claim_C2_amended (env : VerifyEnv) (b : Bytes) (p : Pointer)
    (hused : env.usedToVerifyPieceHashes = false)
    (hfetch : env.fetch1 = .ok (b, p))
    (hphv : p.pieceHashesVerified = false) :
    (Verify env).1.fails = [] ∧ (Verify env).1.pendingAudits = [] ∧
    (∀ r : Report,
      (applyHashGuard env.usedToVerifyPieceHashes p r).successes = r.successes ∧
      (applyHashGuard env.usedToVerifyPieceHashes p r).offlines = r.offlines ∧
      (applyHashGuard env.usedToVerifyPieceHashes p r).unknown = r.unknown) := by
  have hguard : ∀ r : Report,
      (applyHashGuard env.usedToVerifyPieceHashes p r).successes = r.successes ∧
      (applyHashGuard env.usedToVerifyPieceHashes p r).offlines = r.offlines ∧
      (applyHashGuard env.usedToVerifyPieceHashes p r).unknown = r.unknown := by
    intro r
    simp [applyHashGuard, hused, hphv]
  have hmain : (Verify env).1.fails = [] ∧ (Verify env).1.pendingAudits = [] := by
    unfold Verify
    rw [hfetch]
    cases hexp : pointerExpired p env.now with
    | true => cases hdel : env.deleteFails <;> simp [hexp, hdel, emptyReport]
    | false => simp [hexp, applyHashGuard, hused, hphv]
  exact ⟨hmain.1, hmain.2, hguard⟩

/-- Witness for C2 (amended) at a concrete environment. -/
theorem claim_C2_witness :
    (Verify c2wEnv).1.fails = [] ∧ (Verify c2wEnv).1.pendingAudits = [] := by
  have h := claim_C2_amended c2wEnv [0] cPtrUnverified rfl rfl rfl
  exact ⟨h.1, h.2.1⟩

/-- C7, counterexample.  The pointer expired, but the delete is NOT best
effort: when `metainfo.Delete` fails, `Verify` returns the wrapped delete
error (line 106), not `nil`. -/
theorem claim_C7_counterexample :
    pointerExpired c7ptr c7env.now = true ∧
    c7env.deleteFails = true ∧
    (Verify c7env).2 = some VerifyErr.deleteFailed :=
  ⟨rfl, rfl, rfl⟩

/-- C7, amended.  For every pointer whose `ExpirationDate` is set and in
the past, `Verify` attempts to delete the pointer and returns an empty
Report; the returned error is `nil` when the delete succeeds and the
wrapped delete error when the delete fails. -/
theorem claim_C7_amended (env : VerifyEnv) (b : Bytes) (p : Pointer) (d : Nat)
    (hfetch : env.fetch1 = .ok (b, p))
    (hexp : p.expirationDate = some d) (hpast : d < env.now) :
    Verify env =
      (emptyReport,
       if env.deleteFails then some VerifyErr.deleteFailed else none) := by
  have hexpired : pointerExpired p env.now = true := by
    unfold pointerExpired
    rw [hexp]
    exact decide_eq_true hpast
  unfold Verify
  rw [hfetch]
  simp only [hexpired]
  cases env.deleteFails <;> simp

/-- Witness for C7 (amended): expired pointer, delete succeeds. -/
theorem claim_C7_witness : Verify c7wEnv = (emptyReport, none) := by
  have h := claim_C7_amended c7wEnv [0] c7ptr 0 rfl rfl (by decide)
  simpa using h

/-- C6, counterexample.  A re-fetched pointer whose `CreationDate`
differs (and whose bytes differ) makes `checkIfSegmentAltered` yield
`ErrSegmentDeleted` (line 732), not `ErrSegmentModified` as the claim
states, and `ErrSegmentDeleted` is therefore NOT yielded exactly on
not-found. -/
theorem claim_C6_counterexample :
    c6oldPtr.creationDate ≠ c6newPtr.creationDate ∧
    ([0] : Bytes) ≠ ([1] : Bytes) ∧
    checkIfSegmentAltered (.ok ([1], c6newPtr)) [0] c6oldPtr =
      some AlteredOutcome.deleted ∧
    checkIfSegmentAltered (.ok ([1], c6newPtr)) [0] c6oldPtr ≠
      some AlteredOutcome.modified := by
  refine ⟨by decide, by decide, rfl, by decide⟩

/-- C6, amended.  `checkIfSegmentAltered` yields `ErrSegmentDeleted`
exactly when the re-fetch reports not-found OR the re-fetched pointer's
`CreationDate` differs from the original's; it yields
`ErrSegmentModified` exactly when the `CreationDate` matches but the
bytes differ; in both cases `Verify` absorbs the error and returns an
empty Report with `nil` error. -/
theorem claim_C6_amended :
    (∀ (refetch : Except FetchErr (Bytes × Pointer)) (oldB : Bytes) (oldP : Pointer),
      (checkIfSegmentAltered refetch oldB oldP = some AlteredOutcome.deleted ↔
        refetch = .error .notFound ∨
        ∃ nb np, refetch = .ok (nb, np) ∧ oldP.creationDate ≠ np.creationDate) ∧
      (checkIfSegmentAltered refetch oldB oldP = some AlteredOutcome.modified ↔
        ∃ nb np, refetch = .ok (nb, np) ∧ oldP.creationDate = np.creationDate ∧
          oldB ≠ nb)) ∧
    (∀ (env : VerifyEnv) (b : Bytes) (p : Pointer) (ri : Nat)
        (limits : List (Option OrderLimit)),
      env.fetch1 = .ok (b, p) → pointerExpired p env.now = false →
      env.randomStripe = .ok ri → env.parseKeyOk = true →
      env.orderLimits = .ok limits →
      (checkIfSegmentAltered env.refetch b p = some AlteredOutcome.deleted ∨
       checkIfSegmentAltered env.refetch b p = some AlteredOutcome.modified) →
      Verify env = (emptyReport, none)) := by
  constructor
  · intro refetch oldB oldP
    constructor
    · cases refetch with
      | error fe => cases fe <;> simp [checkIfSegmentAltered]
      | ok pr =>
        rcases pr with ⟨nb, np⟩
        by_cases hcd : oldP.creationDate = np.creationDate
        · by_cases hb : oldB = nb <;> simp [checkIfSegmentAltered, hcd, hb]
        · simp [checkIfSegmentAltered, hcd]
          exact ⟨nb, np, ⟨rfl, rfl⟩, hcd⟩
    · cases refetch with
      | error fe => cases fe <;> simp [checkIfSegmentAltered]
      | ok pr =>
        rcases pr with ⟨nb, np⟩
        by_cases hcd : oldP.creationDate = np.creationDate
        · by_cases hb : oldB = nb
          · simp [checkIfSegmentAltered, hcd, hb]
          · simp [checkIfSegmentAltered, hcd, hb]
            exact ⟨nb, np, ⟨rfl, rfl⟩, rfl, hb⟩
        · simp [checkIfSegmentAltered, hcd]
  · intro env b p ri limits hfetch hexp hstripe hparse hlim halt
    unfold Verify
    rw [hfetch]
    rcases halt with h | h <;>
      simp [hexp, verifyBody, hstripe, hparse, hlim, h, applyHashGuard, emptyReport]

/-- Witness for C6 (amended): modified bytes with matching creation date,
and absorption by `Verify` at a concrete environment. -/
theorem claim_C6_witness :
    checkIfSegmentAltered (Except.ok ([1], cPtrVerified)) [0] cPtrVerified =
      some AlteredOutcome.modified ∧
    Verify c6wEnv = (emptyReport, none) := by
  have h := claim_C6_amended
  refine ⟨?_, ?_⟩
  · exact (h.1 (.ok ([1], cPtrVerified)) [0] cPtrVerified).2.mpr
      ⟨[1], cPtrVerified, rfl, rfl, by decide⟩
  · exact h.2 c6wEnv [0] cPtrVerified 0 cLimits rfl rfl rfl rfl rfl (Or.inr rfl)

/-- C5, counterexample.  Fewer than k shares were downloaded without
error, `ErrNotEnoughShares` is returned — but on this pointer (piece
hashes unverified, verifier not flagged) the deferred guard clears the
`Fails` that the claim says the partial Report carries: the classified
failed list is `[1]`, the returned one is `[]`. -/
theorem claim_C5_counterexample :
    (classifyShares (DownloadShares c2wEnv.getShare cLimits).1
        (getOfflineNodes cPtrUnverified cLimits c2wEnv.skip)).toAudit.length = 0 ∧
    cPtrUnverified.remote.redundancy.minReq = 1 ∧
    (Verify c2wEnv).2 = some (VerifyErr.notEnoughShares 0 1) ∧
    (classifyShares (DownloadShares c2wEnv.getShare cLimits).1
        (getOfflineNodes cPtrUnverified cLimits c2wEnv.skip)).failed = [1] ∧
    (Verify c2wEnv).1.fails = [] :=
  ⟨rfl, rfl, rfl, rfl, rfl⟩

/-- C5, amended.  Whenever the audit reaches the sufficiency gate
(pointer fetched and unexpired, stripe, key-parse and order steps
succeeded, mid-flight tamper check passed) with fewer than k error-free
shares, `Verify` returns `ErrNotEnoughShares` together with a partial
Report whose `Offlines` and `Unknown` are the lists classified so far,
whose `Successes` and `PendingAudits` are empty, and whose `Fails` is the
list classified so far — unless the hashes-unverified guard applies
(`PieceHashesVerified` false and verifier not flagged
`UsedToVerifyPieceHashes`), in which case `Fails` is cleared. -/
theorem claim_C5_amended (env : VerifyEnv) (b : Bytes) (p : Pointer) (ri : Nat)
    (limits : List (Option OrderLimit))
    (hfetch : env.fetch1 = .ok (b, p))
    (hexp : pointerExpired p env.now = false)
    (hstripe : env.randomStripe = .ok ri)
    (hparse : env.parseKeyOk = true)
    (hlim : env.orderLimits = .ok limits)
    (halt : checkIfSegmentAltered env.refetch b p = none)
    (hlt : (classifyShares (DownloadShares env.getShare limits).1
        (getOfflineNodes p limits env.skip)).toAudit.length <
        p.remote.redundancy.minReq) :
    (Verify env).2 = some (VerifyErr.notEnoughShares
      (classifyShares (DownloadShares env.getShare limits).1
        (getOfflineNodes p limits env.skip)).toAudit.length
      p.remote.redundancy.minReq) ∧
    (Verify env).1.successes = [] ∧
    (Verify env).1.pendingAudits = [] ∧
    (Verify env).1.offlines = (classifyShares (DownloadShares env.getShare limits).1
        (getOfflineNodes p limits env.skip)).offline ∧
    (Verify env).1.unknown = (classifyShares (DownloadShares env.getShare limits).1
        (getOfflineNodes p limits env.skip)).unknown ∧
    ((p.pieceHashesVerified = true ∨ env.usedToVerifyPieceHashes = true) →
      (Verify env).1.fails = (classifyShares (DownloadShares env.getShare limits).1
        (getOfflineNodes p limits env.skip)).failed) := by
  have hv : Verify env =
      (applyHashGuard env.usedToVerifyPieceHashes p (verifyBody env b p).1,
       (verifyBody env b p).2) := by
    unfold Verify
    rw [hfetch]
    simp [hexp]
  have hbody : verifyBody env b p =
      ({ successes := [],
         fails := (classifyShares (DownloadShares env.getShare limits).1
           (getOfflineNodes p limits env.skip)).failed,
         offlines := (classifyShares (DownloadShares env.getShare limits).1
           (getOfflineNodes p limits env.skip)).offline,
         pendingAudits := [],
         unknown := (classifyShares (DownloadShares env.getShare limits).1
           (getOfflineNodes p limits env.skip)).unknown },
       some (VerifyErr.notEnoughShares
         (classifyShares (DownloadShares env.getShare limits).1
           (getOfflineNodes p limits env.skip)).toAudit.length
         p.remote.redundancy.minReq)) := by
    unfold verifyBody
    rw [hstripe]
    simp only [hparse, Bool.not_true, Bool.false_eq_true, if_false]
    rw [hlim]
    simp only [halt, hlt, if_true, emptyReport]
  rw [hv, hbody]
  refine ⟨rfl, ?_⟩
  unfold applyHashGuard
  cases hused : env.usedToVerifyPieceHashes with
  | true => simp
  | false =>
    cases hphv : p.pieceHashesVerified with
    | true => simp
    | false => simp

/-- Witness for C5 (amended): piece hashes verified, so the gate's
partial report carries the classified `Fails`. -/
theorem claim_C5_witness :
    (Verify c5wEnv).2 = some (VerifyErr.notEnoughShares 0 1) ∧
    (Verify c5wEnv).1.fails = [1] ∧
    (Verify c5wEnv).1.offlines = [] := by
  have h := claim_C5_amended c5wEnv [0] cPtrVerified 0 cLimits rfl rfl rfl rfl rfl
    rfl (by decide)
  refine ⟨?_, ?_, ?_⟩
  · rw [h.1]; rfl
  · rw [h.2.2.2.2.2 (Or.inl rfl)]; rfl
  · rw [h.2.2.2.1]; rfl

/-- The per-node encoding loop of `createPendingAudits` relates each
contained (pieceNum, nodeID) pair to the emitted `PendingAudit`:
the audit's hash is of the re-encoded share and all other fields are
copied from the arguments. -/
theorem encodePending_forall (fec : FECModel) (sha : Bytes → Bytes)
    (stripe : Bytes) (rootId idx s path : Nat) :
    ∀ (l : List (Nat × NodeID)) (out : List PendingAudit),
    encodePending fec sha stripe rootId idx s path l = .ok out →
    List.Forall₂ (fun (c : Nat × NodeID) (pa : PendingAudit) =>
      ∃ sh, fec.encodeSingle stripe c.1 = .ok sh ∧
        pa = ⟨c.2, rootId, idx, s, sha sh, path⟩) l out := by
  intro l
  induction l with
  | nil =>
    intro out h
    simp only [encodePending] at h
    cases h
    exact List.Forall₂.nil
  | cons c rest ih =>
    intro out h
    rcases c with ⟨pn, nid⟩
    simp only [encodePending] at h
    cases henc : fec.encodeSingle stripe pn with
    | error e => rw [henc] at h; cases h
    | ok sh =>
      rw [henc] at h
      cases hrest : encodePending fec sha stripe rootId idx s path rest with
      | error e => rw [hrest] at h; cases h
      | ok pas =>
        rw [hrest] at h
        cases h
        exact List.Forall₂.cons ⟨sh, henc, rfl⟩ (ih pas hrest)

/-- The emitted pending audits carry exactly the contained nodes, in
order. -/
theorem encodePending_nodes (fec : FECModel) (sha : Bytes → Bytes)
    (stripe : Bytes) (rootId idx s path : Nat) :
    ∀ (l : List (Nat × NodeID)) (out : List PendingAudit),
    encodePending fec sha stripe rootId idx s path l = .ok out →
    out.map PendingAudit.nodeId = l.map Prod.snd := by
  intro l
  induction l with
  | nil =>
    intro out h
    simp only [encodePending] at h
    cases h
    rfl
  | cons c rest ih =>
    intro out h
    rcases c with ⟨pn, nid⟩
    simp only [encodePending] at h
    cases henc : fec.encodeSingle stripe pn with
    | error e => rw [henc] at h; cases h
    | ok sh =>
      rw [henc] at h
      cases hrest : encodePending fec sha stripe rootId idx s path rest with
      | error e => rw [hrest] at h; cases h
      | ok pas =>
        rw [hrest] at h
        cases h
        simp [ih pas hrest]

/-- C3.  Every `PendingAudit` emitted for a contained pieceNum has
`ExpectedShareHash` equal to the hash of the share produced by
`EncodeSingle` at that pieceNum from the stripe rebuilt out of the
post-correction shares, and carries the audit's stripe index, the
redundancy's erasure share size, the pointer's `RootPieceId`, and the
audited segment key as `Path`. -/
theorem claim_C3_pending_audits (fec : FECModel) (sha : Bytes → Bytes)
    (contained : List (Nat × NodeID)) (corrected : List InfShare)
    (ptr : Pointer) (ri path : Nat) (pending : List PendingAudit)
    (h : createPendingAudits fec sha contained corrected ptr ri path = .ok pending) :
    (contained = [] ∧ pending = []) ∨
    ∃ stripe,
      rebuildStripe fec ptr.remote.redundancy.minReq corrected
        ptr.remote.redundancy.erasureShareSize = .ok stripe ∧
      List.Forall₂ (fun (c : Nat × NodeID) (pa : PendingAudit) =>
        ∃ sh, fec.encodeSingle stripe c.1 = .ok sh ∧
          pa = ⟨c.2, ptr.remote.rootPieceId, ri,
                ptr.remote.redundancy.erasureShareSize, sha sh, path⟩)
        contained pending := by
  unfold createPendingAudits at h
  by_cases hne : contained.isEmpty
  · left
    rw [if_pos hne] at h
    cases h
    exact ⟨List.isEmpty_iff.mp hne, rfl⟩
  · right
    rw [if_neg hne] at h
    cases hfec : fec.newFECOk ptr.remote.redundancy.minReq ptr.remote.redundancy.total with
    | false => simp [hfec] at h
    | true =>
      simp only [hfec, Bool.not_true, Bool.false_eq_true, if_false] at h
      cases hreb : rebuildStripe fec ptr.remote.redundancy.minReq corrected
          ptr.remote.redundancy.erasureShareSize with
      | error e => rw [hreb] at h; cases h
      | ok stripe =>
        rw [hreb] at h
        exact ⟨stripe, rfl, encodePending_forall fec sha stripe
          ptr.remote.rootPieceId ri ptr.remote.redundancy.erasureShareSize path
          contained pending h⟩

/-- Witness for C3 at a concrete contained node and trivial FEC. -/
theorem claim_C3_witness :
    ([((0 : Nat), (7 : Nat))] = [] ∧ c3pending = []) ∨
    ∃ stripe,
      rebuildStripe fecTriv cPtrVerified.remote.redundancy.minReq []
        cPtrVerified.remote.redundancy.erasureShareSize = .ok stripe ∧
      List.Forall₂ (fun (c : Nat × NodeID) (pa : PendingAudit) =>
        ∃ sh, fecTriv.encodeSingle stripe c.1 = .ok sh ∧
          pa = ⟨c.2, cPtrVerified.remote.rootPieceId, 3,
                cPtrVerified.remote.redundancy.erasureShareSize, c3sha sh, 5⟩)
        [(0, 7)] c3pending :=
  claim_C3_pending_audits fecTriv c3sha [(0, 7)] [] cPtrVerified 3 5 c3pending rfl

/-- When the audit report's success count is zero, below `MinReq` or
below the repair threshold, the iteration body of `VerifyPieceHashes`
returns `(false, nil)` without reaching the conditional update. -/
theorem vphBody_guard (env : VPHEnv) (a : Nat) (b : Bytes) (p : Pointer)
    (report : Report)
    (hfetch : env.fetch a = .ok (b, p))
    (hphv : p.pieceHashesVerified = false)
    (hrem : p.isRemote = true)
    (hver : env.verify a = .ok report)
    (hcond : report.successes.length = 0 ∨
      report.successes.length < p.remote.redundancy.minReq ∨
      report.successes.length < p.remote.redundancy.repairThreshold) :
    vphBody env a = some (false, none) ∧ vphBodyCallsUpdate env a = false := by
  constructor
  · unfold vphBody
    rw [hfetch]
    simp only [hphv, hrem, Bool.false_eq_true, if_false, Bool.not_true]
    rw [hver]
    by_cases h0 : report.successes.length = 0
    · simp [h0]
    · rcases hcond with hc | hc | hc
      · exact absurd hc h0
      · simp [h0, hc]
      · by_cases hmin : report.successes.length < p.remote.redundancy.minReq
        · simp [h0, hmin]
        · simp [h0, hmin, hc]
  · unfold vphBodyCallsUpdate
    rw [hfetch]
    simp only [hphv, hrem, Bool.false_eq_true, if_false, Bool.not_true]
    rw [hver]
    by_cases h0 : report.successes.length = 0
    · simp [h0]
    · rcases hcond with hc | hc | hc
      · exact absurd hc h0
      · simp [h0, hc]
      · by_cases hmin : report.successes.length < p.remote.redundancy.minReq
        · simp [h0, hmin]
        · simp [h0, hmin, hc]

/-- C9.  `VerifyPieceHashes` never invokes the conditional metainfo
update — and therefore never sets `PieceHashesVerified` or removes
pieces — when the first audit report's success count is zero, below k
(`MinReq`), or below the repair threshold: it returns `(false, nil)`
with zero update calls. -/
theorem claim_C9_vph_thresholds (env : VPHEnv) (b : Bytes) (p : Pointer)
    (report : Report)
    (hfetch : env.fetch 0 = .ok (b, p))
    (hphv : p.pieceHashesVerified = false)
    (hrem : p.isRemote = true)
    (hver : env.verify 0 = .ok report)
    (hcond : report.successes.length = 0 ∨
      report.successes.length < p.remote.redundancy.minReq ∨
      report.successes.length < p.remote.redundancy.repairThreshold) :
    VerifyPieceHashes env = (false, none) ∧ vphUpdateCalls env = 0 := by
  have h := vphBody_guard env 0 b p report hfetch hphv hrem hver hcond
  have hrun : vphRun env (2 + 1) 0 = (false, none) := by
    unfold vphRun
    simp [vphMaxAttempts, h.1]
  have hcalls : vphUpdateCallsFrom env (2 + 1) 0 = 0 := by
    unfold vphUpdateCallsFrom
    simp [vphMaxAttempts, h.1, h.2]
  exact ⟨hrun, hcalls⟩

/-- Witness for C9: empty success list at a concrete environment. -/
theorem claim_C9_witness :
    VerifyPieceHashes c9env = (false, none) ∧ vphUpdateCalls c9env = 0 :=
  claim_C9_vph_thresholds c9env [0] cPtrUnverified emptyReport rfl rfl rfl rfl
    (Or.inl rfl)

/-- C8 (code bug).  The loop of `VerifyPieceHashes` increments `attempts`
both in the loop header and in the loop body, so with `maxAttempts = 3`
it performs only TWO read-verify-update attempts: in an environment
where the update fails with `ValueChanged` on the first two iterations
and would succeed on a third (loop counter 4), the function issues
exactly 2 updates and returns the failed-to-modify error instead of
retrying a third time as the spec (and the code's own error message)
prescribe. -/
theorem claim_C8_retry_budget :
    VerifyPieceHashes c8env = (false, some VPHErr.failedToModify) ∧
    vphUpdateCalls c8env = 2 ∧
    c8env.update 4 = none ∧
    vphMaxAttempts = 3 :=
  ⟨rfl, rfl, rfl, rfl⟩

/-! ### Helper lemmas for the classification partition (C4) -/

theorem contains_iff_mem (l : List Nat) (x : Nat) : l.contains x = true ↔ x ∈ l := by
  rw [List.contains_iff_exists_mem_beq]
  simp

theorem mkShare_nodeId (g : Nat → OrderLimit → Except GoErr Bytes) (i : Nat)
    (l : OrderLimit) : (mkShare g i l).nodeId = l.nodeId := by
  unfold mkShare
  cases g i l <;> rfl

theorem mkShare_pieceNum (g : Nat → OrderLimit → Except GoErr Bytes) (i : Nat)
    (l : OrderLimit) : (mkShare g i l).pieceNum = i := by
  unfold mkShare
  cases g i l <;> rfl

/-- With distinct node ids per piece and limits aligned to pieces, two
limit entries naming the same node are the same entry. -/
theorem shares_node_unique (limits : List (Option OrderLimit))
    (pieces : List RemotePiece)
    (hnodup : (pieces.map RemotePiece.nodeId).Nodup)
    (halign : ∀ i l, limits.get? i = some (some l) →
      ∃ pc ∈ pieces, pc.pieceNum = i ∧ pc.nodeId = l.nodeId)
    {i j : Nat} {l l' : OrderLimit}
    (hi : limits.get? i = some (some l)) (hj : limits.get? j = some (some l'))
    (heq : l.nodeId = l'.nodeId) : i = j ∧ l = l' := by
  obtain ⟨pc, hpc, hpn, hnid⟩ := halign i l hi
  obtain ⟨pc', hpc', hpn', hnid'⟩ := halign j l' hj
  have hpcs : pc = pc' :=
    List.inj_on_of_nodup_map hnodup hpc hpc' (by rw [hnid, hnid', heq])
  have hij : i = j := by rw [← hpn, ← hpn', hpcs]
  subst hij
  rw [hi] at hj
  exact ⟨rfl, by injection hj with h; injection h⟩

/-- Membership in a classification bucket built from the downloaded
shares, in terms of the limits slice. -/
theorem bucket_mem (g : Nat → OrderLimit → Except GoErr Bytes)
    (limits : List (Option OrderLimit)) (cond : Option GoErr → Bool) (x : Nat) :
    x ∈ ((dsAux g limits 0).filter (fun q => cond q.2.error)).map
        (fun q => q.2.nodeId) ↔
    ∃ i l, limits.get? i = some (some l) ∧ l.nodeId = x ∧
      cond (mkShare g i l).error = true := by
  rw [List.mem_map]
  constructor
  · rintro ⟨q, hq, hx⟩
    rw [List.mem_filter] at hq
    obtain ⟨j, l, hget, hql⟩ := (dsAux_mem g limits 0 q).mp hq.1
    refine ⟨j, l, by simpa using hget, ?_, ?_⟩
    · rw [← hx, hql]
      simpa using (mkShare_nodeId g (0 + j) l).symm
    · have := hq.2
      rw [hql] at this
      simpa using this
  · rintro ⟨i, l, hget, hx, hcond⟩
    refine ⟨(i, mkShare g i l), ?_, by rw [mkShare_nodeId]; exact hx⟩
    rw [List.mem_filter]
    exact ⟨(dsAux_mem g limits 0 _).mpr ⟨i, l, hget, by simp⟩, hcond⟩

/-- The node ids of the contained map equal the contained-bucket node
list. -/
theorem contained_nodes_eq (g : Nat → OrderLimit → Except GoErr Bytes)
    (limits : List (Option OrderLimit)) :
    (((dsAux g limits 0).filter (fun q => containedCond q.2.error)).map
        (fun q => (q.1, q.2.nodeId))).map Prod.snd =
    ((dsAux g limits 0).filter (fun q => containedCond q.2.error)).map
        (fun q => q.2.nodeId) := by
  rw [List.map_map]
  rfl

/-- Membership in `getOfflineNodes`, in terms of the pointer's pieces and
the limits slice. -/
theorem offline_mem (p : Pointer) (limits : List (Option OrderLimit))
    (skip : NodeID → Bool) (x : Nat) :
    x ∈ getOfflineNodes p limits skip ↔
      ((∃ pc ∈ p.remote.remotePieces, pc.nodeId = x) ∧
       (¬ ∃ i l, limits.get? i = some (some l) ∧ l.nodeId = x) ∧
       skip x = false) := by
  have hnwl : ∀ y : Nat,
      ((limits.filterMap id).map OrderLimit.nodeId).contains y = true ↔
      ∃ i l, limits.get? i = some (some l) ∧ l.nodeId = y := by
    intro y
    rw [contains_iff_mem, List.mem_map]
    constructor
    · rintro ⟨l, hl, hy⟩
      rw [List.mem_filterMap] at hl
      obtain ⟨ol, hol, hid⟩ := hl
      obtain ⟨i, hget⟩ := List.mem_iff_get?.mp hol
      exact ⟨i, l, by rw [hget]; exact congrArg some hid, hy⟩
    · rintro ⟨i, l, hget, hy⟩
      refine ⟨l, ?_, hy⟩
      rw [List.mem_filterMap]
      exact ⟨some l, List.mem_iff_get?.mpr ⟨i, hget⟩, rfl⟩
  unfold getOfflineNodes
  rw [List.mem_map]
  constructor
  · rintro ⟨pc, hpc, hx⟩
    rw [List.mem_filter] at hpc
    have hcond := hpc.2
    rw [Bool.and_eq_true, Bool.not_eq_true', Bool.not_eq_true'] at hcond
    refine ⟨⟨pc, hpc.1, hx⟩, ?_, by rw [← hx]; exact hcond.2⟩
    intro hex
    have := (hnwl x).mpr hex
    rw [← hx] at this
    rw [hcond.1] at this
    cases this
  · rintro ⟨⟨pc, hpc, hx⟩, hnolim, hskip⟩
    refine ⟨pc, ?_, hx⟩
    rw [List.mem_filter]
    refine ⟨hpc, ?_⟩
    rw [Bool.and_eq_true, Bool.not_eq_true', Bool.not_eq_true']
    constructor
    · rw [← Bool.not_eq_true]
      intro hc
      rw [hx] at hc
      exact hnolim ((hnwl x).mp hc)
    · rw [hx]; exact hskip

/-- Membership in `getSuccessNodes` over the downloaded shares, in terms
of the limits slice. -/
theorem success_mem (g : Nat → OrderLimit → Except GoErr Bytes)
    (limits : List (Option OrderLimit)) (f o u : List Nat)
    (c : List (Nat × Nat)) (x : Nat) :
    x ∈ getSuccessNodes (dsAux g limits 0) f o u c ↔
      ((∃ i l, limits.get? i = some (some l) ∧ l.nodeId = x) ∧
       x ∉ f ∧ x ∉ o ∧ x ∉ u ∧ x ∉ c.map Prod.snd) := by
  unfold getSuccessNodes
  rw [List.mem_map]
  constructor
  · rintro ⟨q, hq, hx⟩
    rw [List.mem_filter] at hq
    obtain ⟨j, l, hget, hql⟩ := (dsAux_mem g limits 0 q).mp hq.1
    have hxl : l.nodeId = x := by
      rw [← hx, hql]
      simpa using (mkShare_nodeId g (0 + j) l).symm
    have hcond := hq.2
    simp only [Bool.and_eq_true, Bool.not_eq_true'] at hcond
    obtain ⟨⟨⟨hf, ho⟩, hu⟩, hc⟩ := hcond
    rw [hx] at hf ho hu hc
    refine ⟨⟨j, l, by simpa using hget, hxl⟩, ?_, ?_, ?_, ?_⟩ <;>
      rw [← contains_iff_mem] <;> simp only [Bool.not_eq_true]
    · exact hf
    · exact ho
    · exact hu
    · exact hc
  · rintro ⟨⟨i, l, hget, hxl⟩, hf, ho, hu, hc⟩
    refine ⟨(i, mkShare g i l), ?_, by rw [mkShare_nodeId]; exact hxl⟩
    rw [List.mem_filter]
    refine ⟨(dsAux_mem g limits 0 _).mpr ⟨i, l, hget, by simp⟩, ?_⟩
    simp only [Bool.and_eq_true, Bool.not_eq_true']
    rw [mkShare_nodeId, hxl]
    rw [← contains_iff_mem] at hf ho hu hc
    simp only [Bool.not_eq_true] at hf ho hu hc
    exact ⟨⟨⟨hf, ho⟩, hu⟩, hc⟩

/-- Exclusivity: an offline-classified error matches no other bucket. -/
theorem offlineCond_excl (e : Option GoErr) (h : offlineCond e = true) :
    failedCond e = false ∧ unknownCond e = false ∧ containedCond e = false ∧
    e.isNone = false := by
  rcases e with _ | ⟨b1, b2, b3, b4, b5⟩
  · cases h
  · cases b1 <;> cases b2 <;> cases b3 <;> cases b4 <;> cases b5 <;> revert h <;> decide

/-- Exclusivity: a failed-classified error matches no other bucket. -/
theorem failedCond_excl (e : Option GoErr) (h : failedCond e = true) :
    offlineCond e = false ∧ unknownCond e = false ∧ containedCond e = false ∧
    e.isNone = false := by
  rcases e with _ | ⟨b1, b2, b3, b4, b5⟩
  · cases h
  · cases b1 <;> cases b2 <;> cases b3 <;> cases b4 <;> cases b5 <;> revert h <;> decide

/-- Exclusivity: an unknown-classified error matches no other bucket. -/
theorem unknownCond_excl (e : Option GoErr) (h : unknownCond e = true) :
    offlineCond e = false ∧ failedCond e = false ∧ containedCond e = false ∧
    e.isNone = false := by
  rcases e with _ | ⟨b1, b2, b3, b4, b5⟩
  · cases h
  · cases b1 <;> cases b2 <;> cases b3 <;> cases b4 <;> cases b5 <;> revert h <;> decide

/-- Exclusivity: a contained-classified error matches no other bucket. -/
theorem containedCond_excl (e : Option GoErr) (h : containedCond e = true) :
    offlineCond e = false ∧ failedCond e = false ∧ unknownCond e = false ∧
    e.isNone = false := by
  rcases e with _ | ⟨b1, b2, b3, b4, b5⟩
  · cases h
  · cases b1 <;> cases b2 <;> cases b3 <;> cases b4 <;> cases b5 <;> revert h <;> decide

/-- Exclusivity: a `nil` error matches no bucket condition. -/
theorem isNone_excl (e : Option GoErr) (h : e.isNone = true) :
    offlineCond e = false ∧ failedCond e = false ∧ unknownCond e = false ∧
    containedCond e = false := by
  rcases e with _ | e
  · exact ⟨rfl, rfl, rfl, rfl⟩
  · cases h

/-- Totality: every error matches some bucket condition. -/
theorem cond_total (e : Option GoErr) :
    offlineCond e = true ∨ failedCond e = true ∨ unknownCond e = true ∨
    containedCond e = true ∨ e.isNone = true := by
  rcases e with _ | ⟨b1, b2, b3, b4, b5⟩
  · right; right; right; right; rfl
  · cases b1 <;> cases b2 <;> cases b3 <;> cases b4 <;> cases b5 <;> decide

/-- Every altered piece number reported by `auditShares` is the piece
number of a submitted share. -/
theorem auditShares_pieceNums (fec : FECModel) (req tot : Nat)
    (originals : List (Nat × Share)) (pieceNums : List Nat)
    (corrected : List InfShare)
    (h : auditShares fec req tot originals = .ok (pieceNums, corrected)) :
    ∀ pn ∈ pieceNums, ∃ q ∈ originals, q.2.pieceNum = pn := by
  unfold auditShares at h
  cases hfec : fec.newFECOk req tot with
  | false => simp [hfec] at h
  | true =>
    simp only [hfec, Bool.not_true, Bool.false_eq_true, if_false] at h
    cases hcd : fec.correctData (makeCopies originals) with
    | error e => rw [hcd] at h; cases h
    | ok datas =>
      rw [hcd] at h
      injection h with h
      injection h with h1 h2
      intro pn hpn
      rw [← h1] at hpn
      rw [List.mem_filterMap] at hpn
      obtain ⟨sh, hsh, hval⟩ := hpn
      have hnum : sh.number = pn := by
        by_cases hd : (lookupShare originals sh.number).data ≠ sh.data
        · rw [if_pos hd] at hval; injection hval
        · rw [if_neg hd] at hval; cases hval
      rw [List.mem_map] at hsh
      obtain ⟨pr, hpr, hsh'⟩ := hsh
      rcases pr with ⟨c, d⟩
      have hc : c ∈ makeCopies originals := (List.of_mem_zip hpr).1
      unfold makeCopies at hc
      rw [List.mem_map] at hc
      obtain ⟨q, hq, hqc⟩ := hc
      refine ⟨q, hq, ?_⟩
      have hcn : c.number = q.2.pieceNum := by rw [← hqc]
      rw [← hnum, ← hsh']
      simpa using hcn.symm

/-- The pending audits created for the contained nodes carry exactly the
contained nodes. -/
theorem createPendingAudits_nodes (fec : FECModel) (sha : Bytes → Bytes)
    (contained : List (Nat × NodeID)) (corrected : List InfShare)
    (ptr : Pointer) (ri path : Nat) (pending : List PendingAudit)
    (h : createPendingAudits fec sha contained corrected ptr ri path = .ok pending) :
    pending.map PendingAudit.nodeId = contained.map Prod.snd := by
  unfold createPendingAudits at h
  by_cases hne : contained.isEmpty
  · rw [if_pos hne] at h
    cases h
    rw [List.isEmpty_iff.mp hne]
    rfl
  · rw [if_neg hne] at h
    cases hfec : fec.newFECOk ptr.remote.redundancy.minReq ptr.remote.redundancy.total with
    | false => simp [hfec] at h
    | true =>
      simp only [hfec, Bool.not_true, Bool.false_eq_true, if_false] at h
      cases hreb : rebuildStripe fec ptr.remote.redundancy.minReq corrected
          ptr.remote.redundancy.erasureShareSize with
      | error e => rw [hreb] at h; cases h
      | ok stripe =>
        rw [hreb] at h
        exact encodePending_nodes fec sha stripe ptr.remote.rootPieceId ri
          ptr.remote.redundancy.erasureShareSize path contained pending h

/-- C4, counterexample.  `Verify` on an expired pointer returns a nil
error and an empty report: the pointer's only piece (node 1, not
skipped) appears in NO bucket, so the node is not in exactly one of the
six sets after a nil-error `Verify`. -/
theorem claim_C4_counterexample :
    (Verify c4env).2 = none ∧
    c7ptr.remote.remotePieces = [⟨0, 1⟩] ∧
    c4env.skip 1 = false ∧
    inBucketCount (Verify c4env).1 c4env.skip 1 = 0 :=
  ⟨rfl, rfl, rfl, rfl⟩

/-- C4, amended.  After a `Verify` call that completes the full
classification path (pointer fetched and unexpired, stripe, key-parse
and order steps succeeded, tamper check passed, enough shares, erasure
check and pending-audit creation succeeded) and whose hashes-unverified
guard does not fire, for every piece in the pointer — with distinct node
ids per piece, order limits aligned to the pointer's pieces, and skipped
nodes receiving no limit — the piece's node appears in exactly one of
Successes, Fails, Offlines, Unknown, PendingAudits (by node id), or the
caller-supplied skip set. -/
theorem claim_C4_partition (env : VerifyEnv) (b : Bytes) (p : Pointer) (ri : Nat)
    (limits : List (Option OrderLimit)) (pieceNums : List Nat)
    (corrected : List InfShare) (pendings : List PendingAudit)
    (hfetch : env.fetch1 = .ok (b, p))
    (hexp : pointerExpired p env.now = false)
    (hstripe : env.randomStripe = .ok ri)
    (hparse : env.parseKeyOk = true)
    (hlim : env.orderLimits = .ok limits)
    (halt : checkIfSegmentAltered env.refetch b p = none)
    (hk : ¬((classifyShares (DownloadShares env.getShare limits).1
        (getOfflineNodes p limits env.skip)).toAudit.length <
        p.remote.redundancy.minReq))
    (haudit : auditShares env.fec p.remote.redundancy.minReq
      p.remote.redundancy.total
      (classifyShares (DownloadShares env.getShare limits).1
        (getOfflineNodes p limits env.skip)).toAudit = .ok (pieceNums, corrected))
    (hpend : createPendingAudits env.fec env.sha256
      (classifyShares (DownloadShares env.getShare limits).1
        (getOfflineNodes p limits env.skip)).contained corrected p ri env.path
      = .ok pendings)
    (hguard : p.pieceHashesVerified = true ∨ env.usedToVerifyPieceHashes = true)
    (hnodup : (p.remote.remotePieces.map RemotePiece.nodeId).Nodup)
    (halign : ∀ i l, limits.get? i = some (some l) →
      ∃ pc ∈ p.remote.remotePieces, pc.pieceNum = i ∧ pc.nodeId = l.nodeId)
    (hskip : ∀ i l, limits.get? i = some (some l) → env.skip l.nodeId = false) :
    (Verify env).2 = none ∧
    ∀ pc ∈ p.remote.remotePieces,
      inBucketCount (Verify env).1 env.skip pc.nodeId = 1 := by
  have hv : Verify env =
      (applyHashGuard env.usedToVerifyPieceHashes p (verifyBody env b p).1,
       (verifyBody env b p).2) := by
    unfold Verify
    rw [hfetch]
    simp [hexp]
  have hbody : verifyBody env b p =
      ({ successes := getSuccessNodes (DownloadShares env.getShare limits).1
           ((classifyShares (DownloadShares env.getShare limits).1
               (getOfflineNodes p limits env.skip)).failed ++
             pieceNums.map (fun pn =>
               (lookupShare (DownloadShares env.getShare limits).1 pn).nodeId))
           (classifyShares (DownloadShares env.getShare limits).1
             (getOfflineNodes p limits env.skip)).offline
           (classifyShares (DownloadShares env.getShare limits).1
             (getOfflineNodes p limits env.skip)).unknown
           (classifyShares (DownloadShares env.getShare limits).1
             (getOfflineNodes p limits env.skip)).contained,
         fails := (classifyShares (DownloadShares env.getShare limits).1
             (getOfflineNodes p limits env.skip)).failed ++
           pieceNums.map (fun pn =>
             (lookupShare (DownloadShares env.getShare limits).1 pn).nodeId),
         offlines := (classifyShares (DownloadShares env.getShare limits).1
           (getOfflineNodes p limits env.skip)).offline,
         pendingAudits := pendings,
         unknown := (classifyShares (DownloadShares env.getShare limits).1
           (getOfflineNodes p limits env.skip)).unknown },
       none) := by
    unfold verifyBody
    rw [hstripe]
    simp only [hparse, Bool.not_true, Bool.false_eq_true, if_false]
    rw [hlim]
    simp only [halt, hk, if_false, haudit, hpend]
  have hgid : ∀ r : Report, applyHashGuard env.usedToVerifyPieceHashes p r = r := by
    intro r
    unfold applyHashGuard
    rcases hguard with h | h
    · cases henv : env.usedToVerifyPieceHashes <;> simp [h]
    · simp [h]
  have hVe := hv
  rw [hbody] at hVe
  simp only [hgid] at hVe
  refine ⟨by rw [hVe], ?_⟩
  intro pc hpc
  rw [hVe]
  rw [DownloadShares_fst] at haudit hpend
  have haccEq : classifyShares (dsAux env.getShare limits 0)
      (getOfflineNodes p limits env.skip) =
      { offline := getOfflineNodes p limits env.skip ++
          ((dsAux env.getShare limits 0).filter
            (fun q => offlineCond q.2.error)).map (fun q => q.2.nodeId),
        failed := ((dsAux env.getShare limits 0).filter
          (fun q => failedCond q.2.error)).map (fun q => q.2.nodeId),
        unknown := ((dsAux env.getShare limits 0).filter
          (fun q => unknownCond q.2.error)).map (fun q => q.2.nodeId),
        contained := ((dsAux env.getShare limits 0).filter
          (fun q => containedCond q.2.error)).map (fun q => (q.1, q.2.nodeId)),
        toAudit := (dsAux env.getShare limits 0).filter
          (fun q => q.2.error.isNone) } := by
    unfold classifyShares
    have h := classify_spec (dsAux env.getShare limits 0)
      ⟨getOfflineNodes p limits env.skip, [], [], [], []⟩
    simpa using h
  have hpendNodes : pendings.map PendingAudit.nodeId =
      ((dsAux env.getShare limits 0).filter
        (fun q => containedCond q.2.error)).map (fun q => q.2.nodeId) := by
    have h := createPendingAudits_nodes env.fec env.sha256 _ corrected p ri env.path
      pendings hpend
    rw [h, haccEq]
    exact contained_nodes_eq env.getShare limits
  -- every altered piece number names a nil-error downloaded share
  have hpnFact : ∀ pn ∈ pieceNums, ∃ l,
      limits.get? pn = some (some l) ∧ (mkShare env.getShare pn l).error = none ∧
      lookupShare (dsAux env.getShare limits 0) pn = mkShare env.getShare pn l := by
    intro pn hpn
    obtain ⟨q, hq, hqn⟩ := auditShares_pieceNums env.fec p.remote.redundancy.minReq
      p.remote.redundancy.total _ pieceNums corrected haudit pn hpn
    rw [haccEq] at hq
    simp only [List.mem_filter] at hq
    obtain ⟨j, l, hget, hql⟩ := (dsAux_mem env.getShare limits 0 q).mp hq.1
    have hj : q.2.pieceNum = j := by
      rw [hql]
      simpa using mkShare_pieceNum env.getShare (0 + j) l
    have hjpn : j = pn := by rw [← hj, hqn]
    subst hjpn
    rw [Nat.zero_add] at hql
    refine ⟨l, hget, ?_, lookupShare_dsAux env.getShare limits j l hget⟩
    have herr := hq.2
    rw [hql] at herr
    simp only [Option.isNone_iff_eq_none] at herr
    exact herr
  rw [DownloadShares_fst, haccEq]
  simp only
  -- per-piece case analysis
  by_cases hLim : ∃ i l, limits.get? i = some (some l) ∧ l.nodeId = pc.nodeId
  · obtain ⟨i, l, hi, hlx⟩ := hLim
    have huniq : ∀ j l', limits.get? j = some (some l') → l'.nodeId = pc.nodeId →
        j = i ∧ l' = l := by
      intro j l' hj hl'x
      have h := shares_node_unique limits p.remote.remotePieces hnodup halign hj hi
        (by rw [hl'x, hlx])
      exact h
    have hskipx : env.skip pc.nodeId = false := by
      have := hskip i l hi
      rwa [hlx] at this
    have hoff0 : pc.nodeId ∉ getOfflineNodes p limits env.skip := by
      rw [offline_mem]
      rintro ⟨_, hno, _⟩
      exact hno ⟨i, l, hi, hlx⟩
    -- bucket membership reduces to the unique share's error condition
    have hbkt : ∀ cond : Option GoErr → Bool,
        pc.nodeId ∈ ((dsAux env.getShare limits 0).filter
          (fun q => cond q.2.error)).map (fun q => q.2.nodeId) ↔
        cond (mkShare env.getShare i l).error = true := by
      intro cond
      rw [bucket_mem]
      constructor
      · rintro ⟨j, l', hj, hl'x, hcond⟩
        obtain ⟨hji, hll⟩ := huniq j l' hj hl'x
        rw [← hji, ← hll]
        exact hcond
      · intro hcond
        exact ⟨i, l, hi, hlx, hcond⟩
    have hcorr_mp : pc.nodeId ∈ pieceNums.map (fun pn =>
        (lookupShare (dsAux env.getShare limits 0) pn).nodeId) →
        i ∈ pieceNums ∧ (mkShare env.getShare i l).error = none := by
      intro hmem
      rw [List.mem_map] at hmem
      obtain ⟨pn, hpn, hx⟩ := hmem
      obtain ⟨l'', hget'', herr'', hlook''⟩ := hpnFact pn hpn
      rw [hlook'', mkShare_nodeId] at hx
      obtain ⟨hji, hll⟩ := huniq pn l'' hget'' hx
      rw [← hji, ← hll]
      exact ⟨hpn, herr''⟩
    have hcorr_mpr : i ∈ pieceNums → pc.nodeId ∈ pieceNums.map (fun pn =>
        (lookupShare (dsAux env.getShare limits 0) pn).nodeId) := by
      intro hmem
      rw [List.mem_map]
      refine ⟨i, hmem, ?_⟩
      rw [lookupShare_dsAux env.getShare limits i l hi, mkShare_nodeId]
      exact hlx
    have hnb : ∀ cond : Option GoErr → Bool,
        cond (mkShare env.getShare i l).error = false →
        pc.nodeId ∉ ((dsAux env.getShare limits 0).filter
          (fun q => cond q.2.error)).map (fun q => q.2.nodeId) := by
      intro cond hfalse h
      have := (hbkt cond).mp h
      rw [hfalse] at this
      cases this
    rcases cond_total (mkShare env.getShare i l).error with hc | hc | hc | hc | hc
    · -- offline bucket
      have hexcl := offlineCond_excl _ hc
      have hinOff : pc.nodeId ∈ getOfflineNodes p limits env.skip ++
          ((dsAux env.getShare limits 0).filter
            (fun q => offlineCond q.2.error)).map (fun q => q.2.nodeId) :=
        List.mem_append_right _ ((hbkt offlineCond).mpr hc)
      have hCorrN : pc.nodeId ∉ pieceNums.map (fun pn =>
          (lookupShare (dsAux env.getShare limits 0) pn).nodeId) := by
        intro h
        have h2 := (hcorr_mp h).2
        have h3 : (mkShare env.getShare i l).error.isNone = true := by rw [h2]; rfl
        rw [hexcl.2.2.2] at h3
        cases h3
      have hFailsN : pc.nodeId ∉ ((dsAux env.getShare limits 0).filter
          (fun q => failedCond q.2.error)).map (fun q => q.2.nodeId) ++
          pieceNums.map (fun pn =>
            (lookupShare (dsAux env.getShare limits 0) pn).nodeId) := by
        rw [List.mem_append]
        rintro (h | h)
        · exact hnb failedCond hexcl.1 h
        · exact hCorrN h
      have hUnkN := hnb unknownCond hexcl.2.1
      have hPendN : pc.nodeId ∉ pendings.map PendingAudit.nodeId := by
        rw [hpendNodes]
        exact hnb containedCond hexcl.2.2.1
      have hSuccN : pc.nodeId ∉ getSuccessNodes (dsAux env.getShare limits 0)
          (((dsAux env.getShare limits 0).filter
            (fun q => failedCond q.2.error)).map (fun q => q.2.nodeId) ++
           pieceNums.map (fun pn =>
             (lookupShare (dsAux env.getShare limits 0) pn).nodeId))
          (getOfflineNodes p limits env.skip ++
           ((dsAux env.getShare limits 0).filter
             (fun q => offlineCond q.2.error)).map (fun q => q.2.nodeId))
          (((dsAux env.getShare limits 0).filter
            (fun q => unknownCond q.2.error)).map (fun q => q.2.nodeId))
          (((dsAux env.getShare limits 0).filter
            (fun q => containedCond q.2.error)).map (fun q => (q.1, q.2.nodeId))) := by
        intro hs
        exact ((success_mem env.getShare limits _ _ _ _ _).mp hs).2.2.1 hinOff
      simp [inBucketCount, hinOff, hFailsN, hUnkN, hPendN, hSuccN, hskipx]
    · -- failed bucket
      have hexcl := failedCond_excl _ hc
      have hinFail : pc.nodeId ∈ ((dsAux env.getShare limits 0).filter
          (fun q => failedCond q.2.error)).map (fun q => q.2.nodeId) ++
          pieceNums.map (fun pn =>
            (lookupShare (dsAux env.getShare limits 0) pn).nodeId) :=
        List.mem_append_left _ ((hbkt failedCond).mpr hc)
      have hOffAllN : pc.nodeId ∉ getOfflineNodes p limits env.skip ++
          ((dsAux env.getShare limits 0).filter
            (fun q => offlineCond q.2.error)).map (fun q => q.2.nodeId) := by
        rw [List.mem_append]
        rintro (h | h)
        · exact hoff0 h
        · exact hnb offlineCond hexcl.1 h
      have hUnkN := hnb unknownCond hexcl.2.1
      have hPendN : pc.nodeId ∉ pendings.map PendingAudit.nodeId := by
        rw [hpendNodes]
        exact hnb containedCond hexcl.2.2.1
      have hSuccN : pc.nodeId ∉ getSuccessNodes (dsAux env.getShare limits 0)
          (((dsAux env.getShare limits 0).filter
            (fun q => failedCond q.2.error)).map (fun q => q.2.nodeId) ++
           pieceNums.map (fun pn =>
             (lookupShare (dsAux env.getShare limits 0) pn).nodeId))
          (getOfflineNodes p limits env.skip ++
           ((dsAux env.getShare limits 0).filter
             (fun q => offlineCond q.2.error)).map (fun q => q.2.nodeId))
          (((dsAux env.getShare limits 0).filter
            (fun q => unknownCond q.2.error)).map (fun q => q.2.nodeId))
          (((dsAux env.getShare limits 0).filter
            (fun q => containedCond q.2.error)).map (fun q => (q.1, q.2.nodeId))) := by
        intro hs
        exact ((success_mem env.getShare limits _ _ _ _ _).mp hs).2.1 hinFail
      simp [inBucketCount, hinFail, hOffAllN, hUnkN, hPendN, hSuccN, hskipx]
    · -- unknown bucket
      have hexcl := unknownCond_excl _ hc
      have hinUnk : pc.nodeId ∈ ((dsAux env.getShare limits 0).filter
          (fun q => unknownCond q.2.error)).map (fun q => q.2.nodeId) :=
        (hbkt unknownCond).mpr hc
      have hCorrN : pc.nodeId ∉ pieceNums.map (fun pn =>
          (lookupShare (dsAux env.getShare limits 0) pn).nodeId) := by
        intro h
        have h2 := (hcorr_mp h).2
        have h3 : (mkShare env.getShare i l).error.isNone = true := by rw [h2]; rfl
        rw [hexcl.2.2.2] at h3
        cases h3
      have hFailsN : pc.nodeId ∉ ((dsAux env.getShare limits 0).filter
          (fun q => failedCond q.2.error)).map (fun q => q.2.nodeId) ++
          pieceNums.map (fun pn =>
            (lookupShare (dsAux env.getShare limits 0) pn).nodeId) := by
        rw [List.mem_append]
        rintro (h | h)
        · exact hnb failedCond hexcl.2.1 h
        · exact hCorrN h
      have hOffAllN : pc.nodeId ∉ getOfflineNodes p limits env.skip ++
          ((dsAux env.getShare limits 0).filter
            (fun q => offlineCond q.2.error)).map (fun q => q.2.nodeId) := by
        rw [List.mem_append]
        rintro (h | h)
        · exact hoff0 h
        · exact hnb offlineCond hexcl.1 h
      have hPendN : pc.nodeId ∉ pendings.map PendingAudit.nodeId := by
        rw [hpendNodes]
        exact hnb containedCond hexcl.2.2.1
      have hSuccN : pc.nodeId ∉ getSuccessNodes (dsAux env.getShare limits 0)
          (((dsAux env.getShare limits 0).filter
            (fun q => failedCond q.2.error)).map (fun q => q.2.nodeId) ++
           pieceNums.map (fun pn =>
             (lookupShare (dsAux env.getShare limits 0) pn).nodeId))
          (getOfflineNodes p limits env.skip ++
           ((dsAux env.getShare limits 0).filter
             (fun q => offlineCond q.2.error)).map (fun q => q.2.nodeId))
          (((dsAux env.getShare limits 0).filter
            (fun q => unknownCond q.2.error)).map (fun q => q.2.nodeId))
          (((dsAux env.getShare limits 0).filter
            (fun q => containedCond q.2.error)).map (fun q => (q.1, q.2.nodeId))) := by
        intro hs
        exact ((success_mem env.getShare limits _ _ _ _ _).mp hs).2.2.2.1 hinUnk
      simp [inBucketCount, hinUnk, hFailsN, hOffAllN, hPendN, hSuccN, hskipx]
    · -- contained bucket
      have hexcl := containedCond_excl _ hc
      have hinPend : pc.nodeId ∈ pendings.map PendingAudit.nodeId := by
        rw [hpendNodes]
        exact (hbkt containedCond).mpr hc
      have hinConSnd : pc.nodeId ∈ (((dsAux env.getShare limits 0).filter
          (fun q => containedCond q.2.error)).map
            (fun q => (q.1, q.2.nodeId))).map Prod.snd := by
        rw [contained_nodes_eq]
        exact (hbkt containedCond).mpr hc
      have hCorrN : pc.nodeId ∉ pieceNums.map (fun pn =>
          (lookupShare (dsAux env.getShare limits 0) pn).nodeId) := by
        intro h
        have h2 := (hcorr_mp h).2
        have h3 : (mkShare env.getShare i l).error.isNone = true := by rw [h2]; rfl
        rw [hexcl.2.2.2] at h3
        cases h3
      have hFailsN : pc.nodeId ∉ ((dsAux env.getShare limits 0).filter
          (fun q => failedCond q.2.error)).map (fun q => q.2.nodeId) ++
          pieceNums.map (fun pn =>
            (lookupShare (dsAux env.getShare limits 0) pn).nodeId) := by
        rw [List.mem_append]
        rintro (h | h)
        · exact hnb failedCond hexcl.2.1 h
        · exact hCorrN h
      have hOffAllN : pc.nodeId ∉ getOfflineNodes p limits env.skip ++
          ((dsAux env.getShare limits 0).filter
            (fun q => offlineCond q.2.error)).map (fun q => q.2.nodeId) := by
        rw [List.mem_append]
        rintro (h | h)
        · exact hoff0 h
        · exact hnb offlineCond hexcl.1 h
      have hUnkN := hnb unknownCond hexcl.2.2.1
      have hSuccN : pc.nodeId ∉ getSuccessNodes (dsAux env.getShare limits 0)
          (((dsAux env.getShare limits 0).filter
            (fun q => failedCond q.2.error)).map (fun q => q.2.nodeId) ++
           pieceNums.map (fun pn =>
             (lookupShare (dsAux env.getShare limits 0) pn).nodeId))
          (getOfflineNodes p limits env.skip ++
           ((dsAux env.getShare limits 0).filter
             (fun q => offlineCond q.2.error)).map (fun q => q.2.nodeId))
          (((dsAux env.getShare limits 0).filter
            (fun q => unknownCond q.2.error)).map (fun q => q.2.nodeId))
          (((dsAux env.getShare limits 0).filter
            (fun q => containedCond q.2.error)).map (fun q => (q.1, q.2.nodeId))) := by
        intro hs
        exact ((success_mem env.getShare limits _ _ _ _ _).mp hs).2.2.2.2 hinConSnd
      simp [inBucketCount, hinPend, hFailsN, hOffAllN, hUnkN, hSuccN, hskipx]
    · -- nil error: corrected-failed or success
      have hexcl := isNone_excl _ hc
      have hOffAllN : pc.nodeId ∉ getOfflineNodes p limits env.skip ++
          ((dsAux env.getShare limits 0).filter
            (fun q => offlineCond q.2.error)).map (fun q => q.2.nodeId) := by
        rw [List.mem_append]
        rintro (h | h)
        · exact hoff0 h
        · exact hnb offlineCond hexcl.1 h
      have hUnkN := hnb unknownCond hexcl.2.2.1
      have hPendN : pc.nodeId ∉ pendings.map PendingAudit.nodeId := by
        rw [hpendNodes]
        exact hnb containedCond hexcl.2.2.2
      have hConSndN : pc.nodeId ∉ (((dsAux env.getShare limits 0).filter
          (fun q => containedCond q.2.error)).map
            (fun q => (q.1, q.2.nodeId))).map Prod.snd := by
        rw [contained_nodes_eq]
        exact hnb containedCond hexcl.2.2.2
      by_cases hipn : i ∈ pieceNums
      · have hinFail : pc.nodeId ∈ ((dsAux env.getShare limits 0).filter
            (fun q => failedCond q.2.error)).map (fun q => q.2.nodeId) ++
            pieceNums.map (fun pn =>
              (lookupShare (dsAux env.getShare limits 0) pn).nodeId) :=
          List.mem_append_right _ (hcorr_mpr hipn)
        have hSuccN : pc.nodeId ∉ getSuccessNodes (dsAux env.getShare limits 0)
            (((dsAux env.getShare limits 0).filter
              (fun q => failedCond q.2.error)).map (fun q => q.2.nodeId) ++
             pieceNums.map (fun pn =>
               (lookupShare (dsAux env.getShare limits 0) pn).nodeId))
            (getOfflineNodes p limits env.skip ++
             ((dsAux env.getShare limits 0).filter
               (fun q => offlineCond q.2.error)).map (fun q => q.2.nodeId))
            (((dsAux env.getShare limits 0).filter
              (fun q => unknownCond q.2.error)).map (fun q => q.2.nodeId))
            (((dsAux env.getShare limits 0).filter
              (fun q => containedCond q.2.error)).map
                (fun q => (q.1, q.2.nodeId))) := by
          intro hs
          exact ((success_mem env.getShare limits _ _ _ _ _).mp hs).2.1 hinFail
        simp [inBucketCount, hinFail, hOffAllN, hUnkN, hPendN, hSuccN, hskipx]
      · have hCorrN : pc.nodeId ∉ pieceNums.map (fun pn =>
            (lookupShare (dsAux env.getShare limits 0) pn).nodeId) := by
          intro h
          exact hipn (hcorr_mp h).1
        have hFailsN : pc.nodeId ∉ ((dsAux env.getShare limits 0).filter
            (fun q => failedCond q.2.error)).map (fun q => q.2.nodeId) ++
            pieceNums.map (fun pn =>
              (lookupShare (dsAux env.getShare limits 0) pn).nodeId) := by
          rw [List.mem_append]
          rintro (h | h)
          · exact hnb failedCond hexcl.2.1 h
          · exact hCorrN h
        have hSuccIn : pc.nodeId ∈ getSuccessNodes (dsAux env.getShare limits 0)
            (((dsAux env.getShare limits 0).filter
              (fun q => failedCond q.2.error)).map (fun q => q.2.nodeId) ++
             pieceNums.map (fun pn =>
               (lookupShare (dsAux env.getShare limits 0) pn).nodeId))
            (getOfflineNodes p limits env.skip ++
             ((dsAux env.getShare limits 0).filter
               (fun q => offlineCond q.2.error)).map (fun q => q.2.nodeId))
            (((dsAux env.getShare limits 0).filter
              (fun q => unknownCond q.2.error)).map (fun q => q.2.nodeId))
            (((dsAux env.getShare limits 0).filter
              (fun q => containedCond q.2.error)).map
                (fun q => (q.1, q.2.nodeId))) := by
          rw [success_mem]
          exact ⟨⟨i, l, hi, hlx⟩, hFailsN, hOffAllN, hUnkN, hConSndN⟩
        simp [inBucketCount, hSuccIn, hFailsN, hOffAllN, hUnkN, hPendN, hskipx]
  · -- no order limit for this node
    have hnoshare : ∀ cond : Option GoErr → Bool,
        pc.nodeId ∉ ((dsAux env.getShare limits 0).filter
          (fun q => cond q.2.error)).map (fun q => q.2.nodeId) := by
      intro cond h
      obtain ⟨i, l, hi, hlx, _⟩ := (bucket_mem env.getShare limits cond pc.nodeId).mp h
      exact hLim ⟨i, l, hi, hlx⟩
    have hCorrN : pc.nodeId ∉ pieceNums.map (fun pn =>
        (lookupShare (dsAux env.getShare limits 0) pn).nodeId) := by
      intro h
      rw [List.mem_map] at h
      obtain ⟨pn, hpn, hx⟩ := h
      obtain ⟨l'', hget'', _, hlook''⟩ := hpnFact pn hpn
      rw [hlook'', mkShare_nodeId] at hx
      exact hLim ⟨pn, l'', hget'', hx⟩
    have hFailsN : pc.nodeId ∉ ((dsAux env.getShare limits 0).filter
        (fun q => failedCond q.2.error)).map (fun q => q.2.nodeId) ++
        pieceNums.map (fun pn =>
          (lookupShare (dsAux env.getShare limits 0) pn).nodeId) := by
      rw [List.mem_append]
      rintro (h | h)
      · exact hnoshare failedCond h
      · exact hCorrN h
    have hUnkN := hnoshare unknownCond
    have hPendN : pc.nodeId ∉ pendings.map PendingAudit.nodeId := by
      rw [hpendNodes]
      exact hnoshare containedCond
    have hSuccN : pc.nodeId ∉ getSuccessNodes (dsAux env.getShare limits 0)
        (((dsAux env.getShare limits 0).filter
          (fun q => failedCond q.2.error)).map (fun q => q.2.nodeId) ++
         pieceNums.map (fun pn =>
           (lookupShare (dsAux env.getShare limits 0) pn).nodeId))
        (getOfflineNodes p limits env.skip ++
         ((dsAux env.getShare limits 0).filter
           (fun q => offlineCond q.2.error)).map (fun q => q.2.nodeId))
        (((dsAux env.getShare limits 0).filter
          (fun q => unknownCond q.2.error)).map (fun q => q.2.nodeId))
        (((dsAux env.getShare limits 0).filter
          (fun q => containedCond q.2.error)).map (fun q => (q.1, q.2.nodeId))) := by
      intro hs
      exact hLim ((success_mem env.getShare limits _ _ _ _ _).mp hs).1
    cases hskipx : env.skip pc.nodeId with
    | true =>
      have hOff0N : pc.nodeId ∉ getOfflineNodes p limits env.skip := by
        intro h
        have := ((offline_mem p limits env.skip pc.nodeId).mp h).2.2
        rw [hskipx] at this
        cases this
      have hOffAllN : pc.nodeId ∉ getOfflineNodes p limits env.skip ++
          ((dsAux env.getShare limits 0).filter
            (fun q => offlineCond q.2.error)).map (fun q => q.2.nodeId) := by
        rw [List.mem_append]
        rintro (h | h)
        · exact hOff0N h
        · exact hnoshare offlineCond h
      simp [inBucketCount, hSuccN, hFailsN, hOffAllN, hUnkN, hPendN, hskipx]
    | false =>
      have hOff0In : pc.nodeId ∈ getOfflineNodes p limits env.skip :=
        (offline_mem p limits env.skip pc.nodeId).mpr ⟨⟨pc, hpc, rfl⟩, hLim, hskipx⟩
      have hOffAllIn : pc.nodeId ∈ getOfflineNodes p limits env.skip ++
          ((dsAux env.getShare limits 0).filter
            (fun q => offlineCond q.2.error)).map (fun q => q.2.nodeId) :=
        List.mem_append_left _ hOff0In
      simp [inBucketCount, hSuccN, hFailsN, hOffAllIn, hUnkN, hPendN, hskipx]

/-- Witness for C4 (amended): a one-piece pointer whose node succeeds;
the node lands in exactly one bucket. -/
theorem claim_C4_witness :
    (Verify c4wEnv).2 = none ∧
    inBucketCount (Verify c4wEnv).1 c4wEnv.skip 1 = 1 := by
  have halign : ∀ i l, cLimits.get? i = some (some l) →
      ∃ pc ∈ cPtrVerified.remote.remotePieces, pc.pieceNum = i ∧ pc.nodeId = l.nodeId := by
    intro i l h
    cases i with
    | zero =>
      simp [cLimits] at h
      subst h
      exact ⟨⟨0, 1⟩, by decide, rfl, rfl⟩
    | succ n => simp [cLimits] at h
  have hskip : ∀ i l, cLimits.get? i = some (some l) →
      c4wEnv.skip l.nodeId = false := by
    intro i l _
    rfl
  have h := claim_C4_partition c4wEnv [0] cPtrVerified 0 cLimits []
    [⟨0, [3]⟩] [] rfl rfl rfl rfl rfl rfl (by decide) rfl rfl (Or.inl rfl)
    (by decide) halign hskip
  exact ⟨h.1, h.2 ⟨0, 1⟩ (by decide)⟩

end StorjAudit
